import Mathlib

/-!
# Derived `ErrorType` conformance (lib/Sema/DerivedConformanceErrorType.cpp)

A shallow embedding of the synthesizer that derives the `domain` and `code`
accessors of an enum conforming to `ErrorType`.

Declarations live in the `ASTContext`, addressed by their index (`DeclId`), so
that the pointer structure of the source (a getter that knows its enclosing
enum, a property that knows its getter, a member list of declarations, a body
attached in place) is kept.  Every node the source builds takes the invalid
location `SourceLoc()`; locations of synthesized nodes are therefore not
stored, only the location of the requirement, which the diagnostic uses.
-/

namespace swift

/-! ## Data model -/

/-- Address of a declaration allocated in the `ASTContext`. -/
abbrev DeclId := Nat

/-- Interned name; `Identifier()` is the empty name. -/
abbrev Identifier := String

/-- Source location; `SourceLoc()` is the invalid location `none`. -/
abbrev SourceLoc := Option Nat

/-- Known identifier `Id_domain` of the `ASTContext`. -/
def Id_domain : Identifier := "domain"

/-- Known identifier `Id_code` of the `ASTContext`. -/
def Id_code : Identifier := "code"

/-- Types the synthesizer handles: the declared type of a nominal declaration,
and the declared types of the standard `String` and `Int` declarations. -/
inductive Ty where
  | nominal (decl : DeclId)
  | string
  | int
  deriving DecidableEq, Repr

/-- Expression nodes built by the synthesizer. -/
inductive Expr where
  | DeclRefExpr (selfOf : DeclId) (implicit : Bool)
  | DynamicTypeExpr (base : Expr) (type : Option Ty) (implicit : Bool)
  | InterpolatedStringLiteralExpr (segments : List Expr) (implicit : Bool)
  | IntegerLiteralExpr (digits : String) (implicit : Bool)

/-- Pattern nodes built by the synthesizer. -/
inductive Pattern where
  | EnumElementPattern (parentType : Ty) (name : Identifier) (elt : DeclId)
      (subPattern : Option Pattern) (implicit : Bool)

/-- One label of a `case`: a pattern, or `default`, with an optional guard. -/
structure CaseLabelItem where
  isDefault : Bool
  pattern : Pattern
  guardExpr : Option Expr

mutual
/-- Statement nodes built by the synthesizer. -/
inductive Stmt where
  | ReturnStmt (result : Expr) (implicit : Bool)
  | BraceStmt (elements : List Stmt)
  | SwitchStmt (subject : Expr) (cases : List CaseStmt)
/-- One arm of a switch. -/
inductive CaseStmt where
  | create (caseLabelItems : List CaseLabelItem) (hasBoundDecls : Bool) (body : Stmt)
end

/-- The two body synthesizers a getter can be registered with (the function
pointers `&deriveBodyErrorType_enum_domain`, `&deriveBodyErrorType_enum_code`). -/
inductive BodySynthesizer where
  | deriveBodyErrorType_enum_domain
  | deriveBodyErrorType_enum_code
  deriving DecidableEq, Repr

/-- Kinds of nominal type declaration. -/
inductive NominalKind where
  | Enum
  | Struct
  | Class
  | Protocol
  deriving DecidableEq, Repr

/-- Nominal type declaration with its ordered member list. -/
structure NominalTypeDecl where
  kind : NominalKind
  name : Identifier
  members : List DeclId

/-- Function declaration; a getter is created without a body. -/
structure FuncDecl where
  declContext : DeclId
  selfType : Ty
  resultInterfaceType : Ty
  resultType : Ty
  implicit : Bool
  body : Option Stmt
  bodySynthesizer : Option BodySynthesizer

/-- Variable declaration; a computed read-only property has a getter and no
setter. -/
structure VarDecl where
  declContext : DeclId
  name : Identifier
  interfaceType : Ty
  type : Ty
  isStatic : Bool
  isLet : Bool
  getter : Option DeclId
  setter : Option DeclId
  implicit : Bool

/-- Pattern binding of a variable, here always without initializer. -/
structure PatternBindingDecl where
  declContext : DeclId
  var : DeclId
  init : Option Expr
  implicit : Bool

/-- Declarations stored in the context. -/
inductive Decl where
  | NominalType (d : NominalTypeDecl)
  | EnumElement (name : Identifier)
  | Func (d : FuncDecl)
  | Var (d : VarDecl)
  | PatternBinding (d : PatternBindingDecl)

/-- Diagnostic kinds; the synthesizer emits only `broken_errortype_requirement`. -/
inductive DiagID where
  | broken_errortype_requirement
  | other (id : Nat)
  deriving DecidableEq, Repr

/-- An emitted diagnostic. -/
structure Diagnostic where
  loc : SourceLoc
  id : DiagID
  deriving DecidableEq, Repr

/-- The arena of declarations, and the diagnostics emitted so far (the
diagnostic engine `Diags` belongs to the context). -/
structure ASTContext where
  decls : List Decl
  diags : List Diagnostic

/-- The type checker, which works on its `Context`. -/
structure TypeChecker where
  Context : ASTContext

/-- The requirement handed to the dispatcher, read through `getName` and
`getLoc` only. -/
structure ValueDecl where
  name : Identifier
  loc : SourceLoc

/-! ## Context primitives -/

/-- Look a declaration up. -/
def ASTContext.getDecl (C : ASTContext) (d : DeclId) : Option Decl :=
  C.decls[d]?

/-- Look up a function declaration. -/
def ASTContext.getFunc (C : ASTContext) (d : DeclId) : Option FuncDecl :=
  match C.getDecl d with
  | some (.Func f) => some f
  | _ => none

/-- Look up a nominal type declaration. -/
def ASTContext.getNominal (C : ASTContext) (d : DeclId) : Option NominalTypeDecl :=
  match C.getDecl d with
  | some (.NominalType n) => some n
  | _ => none

/-- Look up a variable declaration. -/
def ASTContext.getVar (C : ASTContext) (d : DeclId) : Option VarDecl :=
  match C.getDecl d with
  | some (.Var v) => some v
  | _ => none

/-- Look up a pattern binding declaration. -/
def ASTContext.getPatternBinding (C : ASTContext) (d : DeclId) : Option PatternBindingDecl :=
  match C.getDecl d with
  | some (.PatternBinding p) => some p
  | _ => none

/-- The member list of a nominal type (empty for anything else). -/
def ASTContext.getMembers (C : ASTContext) (type : DeclId) : List DeclId :=
  match C.getNominal type with
  | some n => n.members
  | none => []

/-- Allocation `new (C) ...`: the new declaration gets the next free address. -/
def ASTContext.allocate (C : ASTContext) (d : Decl) : DeclId × ASTContext :=
  (C.decls.length, { C with decls := C.decls ++ [d] })

/-- The body of a function declaration, when it has one. -/
def ASTContext.getBody (C : ASTContext) (fn : DeclId) : Option Stmt :=
  match C.getFunc fn with
  | some f => f.body
  | none => none

/-- Whether the address holds an enum element declaration. -/
def ASTContext.isEnumElement (C : ASTContext) (d : DeclId) : Bool :=
  match C.getDecl d with
  | some (.EnumElement _) => true
  | _ => false

/-! ## Helpers shared by the derived conformances (declared in DerivedConformances.h) -/

/-- Modelled from the spec: `EnumDecl::getAllElements` is declared in the AST
headers.  The spec gives the enum an ordered sequence of case declarations
whose declaration order is significant; they are the enum-element members of
the type, in member order. -/
def getAllElements (C : ASTContext) (enumDecl : DeclId) : List DeclId :=
  (C.getMembers enumDecl).filter C.isEnumElement

/-- Modelled from the spec: `getDeclaredTypeInContext` is declared in the AST
headers; it is the declared type of the enum itself. -/
def getDeclaredTypeInContext (enumDecl : DeclId) : Ty :=
  Ty.nominal enumDecl

/-- Modelled from the spec: `addMember` is declared in the AST headers; the
member list of the enclosing type is mutated by appending. -/
def addMember (C : ASTContext) (type : DeclId) (member : DeclId) : ASTContext :=
  match C.getNominal type with
  | some n =>
    { C with decls := C.decls.set type (.NominalType { n with members := n.members ++ [member] }) }
  | none => C

/-- Modelled from the spec: `setBody` is declared in the AST headers; the
producer mutates the owning function declaration in place by attaching a body.
It is defined on function declarations only. -/
def setBody (C : ASTContext) (fn : DeclId) (body : Stmt) : Option ASTContext :=
  match C.getFunc fn with
  | some f => some { C with decls := C.decls.set fn (.Func { f with body := some body }) }
  | none => none

/-- Modelled from the spec: `setBodySynthesizer` is declared in the AST headers;
it attaches the deferred body producer to the getter, the body is not built. -/
def setBodySynthesizer (C : ASTContext) (fn : DeclId) (synth : BodySynthesizer) : ASTContext :=
  match C.getFunc fn with
  | some f => { C with decls := C.decls.set fn (.Func { f with bodySynthesizer := some synth }) }
  | none => C

/-- Modelled from the spec: `createSelfDeclRef` is defined in
DerivedConformances.cpp; it is the "self"-reference constructor for the
enclosing accessor, an implicit reference to the `self` of that function. -/
def createSelfDeclRef (fn : DeclId) : Expr :=
  Expr.DeclRefExpr fn true

/-- Modelled from the spec: `declareDerivedPropertyGetter` is defined in
DerivedConformances.cpp; it constructs the getter declaration of the accessor
inside the enclosing type, with the given result type and no body. -/
def declareDerivedPropertyGetter (tc : TypeChecker) (parentDecl : DeclId)
    (contextType propertyInterfaceType propertyContextType : Ty) : DeclId × TypeChecker :=
  let getterDecl : FuncDecl :=
    { declContext := parentDecl, selfType := contextType,
      resultInterfaceType := propertyInterfaceType, resultType := propertyContextType,
      implicit := true, body := none, bodySynthesizer := none }
  let r := tc.Context.allocate (.Func getterDecl)
  (r.1, { tc with Context := r.2 })

/-- Modelled from the spec: `declareDerivedReadOnlyProperty` is defined in
DerivedConformances.cpp; it constructs the read-only property declaration of
the given name and type, whose getter is the given getter, and the
storage-binding declaration of that property. -/
def declareDerivedReadOnlyProperty (tc : TypeChecker) (parentDecl : DeclId)
    (name : Identifier) (propertyInterfaceType propertyContextType : Ty)
    (getterDecl : DeclId) : (DeclId × DeclId) × TypeChecker :=
  let propDecl : VarDecl :=
    { declContext := parentDecl, name := name, interfaceType := propertyInterfaceType,
      type := propertyContextType, isStatic := false, isLet := false,
      getter := some getterDecl, setter := none, implicit := true }
  let r1 := tc.Context.allocate (.Var propDecl)
  let pbDecl : PatternBindingDecl :=
    { declContext := parentDecl, var := r1.1, init := none, implicit := true }
  let r2 := r1.2.allocate (.PatternBinding pbDecl)
  ((r1.1, r2.1), { tc with Context := r2.2 })

/-- Modelled from the spec: `TypeChecker::diagnose` is declared in TypeChecker.h;
it reports one diagnostic of the given kind at the given location to the
diagnostic sink. -/
def TypeChecker.diagnose (tc : TypeChecker) (loc : SourceLoc) (id : DiagID) : TypeChecker :=
  { tc with Context := { tc.Context with diags := tc.Context.diags ++ [{ loc := loc, id := id }] } }

/-! ## The synthesizer (DerivedConformanceErrorType.cpp) -/

/-- The type must be an enum: `isa<EnumDecl>(type)`. -/
def canDeriveConformance (C : ASTContext) (type : DeclId) : Bool :=
  match C.getNominal type with
  | some n => decide (n.kind = NominalKind.Enum)
  | none => false

/-- Body producer of `domain`: `return "\(self.dynamicType)"`. -/
def deriveBodyErrorType_enum_domain (C : ASTContext) (domainDecl : DeclId) :
    Option ASTContext :=
  let selfRef := createSelfDeclRef domainDecl
  let selfDynamicType := Expr.DynamicTypeExpr selfRef none true
  let segments := [selfDynamicType]
  let string := Expr.InterpolatedStringLiteralExpr segments true
  let ret := Stmt.ReturnStmt string true
  let body := Stmt.BraceStmt [ret]
  setBody C domainDecl body

/-- One iteration of the loop of `deriveBodyErrorType_enum_code` over the enum
elements: the state is the arms pushed so far and the `unsigned` counter
`code`, which `++code` increments modulo `2^32`. -/
def deriveBodyErrorType_enum_code_loop (enumType : Ty)
    (st : List CaseStmt × Nat) (elt : DeclId) : List CaseStmt × Nat :=
  let cases := st.1
  let code := st.2
  let pat := Pattern.EnumElementPattern enumType "" elt none true
  let labelItem : CaseLabelItem := { isDefault := false, pattern := pat, guardExpr := none }
  let codeStr := toString code
  let returnExpr := Expr.IntegerLiteralExpr codeStr true
  let returnStmt := Stmt.ReturnStmt returnExpr true
  let body := Stmt.BraceStmt [returnStmt]
  (cases ++ [CaseStmt.create [labelItem] false body], (code + 1) % 2 ^ 32)

/-- Body producer of `code`: a switch over `self` with one arm per element
returning the running counter, or `return 0` for an enum without elements.
`cast<EnumDecl>` of the declaration context fails on anything but an enum. -/
def deriveBodyErrorType_enum_code (C : ASTContext) (codeDecl : DeclId) :
    Option ASTContext :=
  match C.getFunc codeDecl with
  | none => none
  | some fn =>
    match C.getNominal fn.declContext with
    | none => none
    | some n =>
      if n.kind ≠ NominalKind.Enum then none
      else
        let enumDecl := fn.declContext
        let enumType := getDeclaredTypeInContext enumDecl
        let cases :=
          ((getAllElements C enumDecl).foldl
            (deriveBodyErrorType_enum_code_loop enumType) ([], 0)).1
        let bodyStmt :=
          if cases.isEmpty then
            Stmt.ReturnStmt (Expr.IntegerLiteralExpr "0" true) true
          else
            Stmt.SwitchStmt (createSelfDeclRef codeDecl) cases
        let body := Stmt.BraceStmt [bodyStmt]
        setBody C codeDecl body

/-- Invoke a registered body synthesizer on a function declaration. -/
def BodySynthesizer.invoke (synth : BodySynthesizer) (C : ASTContext) (fn : DeclId) :
    Option ASTContext :=
  match synth with
  | .deriveBodyErrorType_enum_domain => swift.deriveBodyErrorType_enum_domain C fn
  | .deriveBodyErrorType_enum_code => swift.deriveBodyErrorType_enum_code C fn

/-- Derive `var domain: String`. -/
def deriveErrorType_enum_domain (tc : TypeChecker) (enumDecl : DeclId) :
    DeclId × TypeChecker :=
  let stringTy := Ty.string
  let enumType := getDeclaredTypeInContext enumDecl
  let g := declareDerivedPropertyGetter tc enumDecl enumType stringTy stringTy
  let getterDecl := g.1
  let C := setBodySynthesizer g.2.Context getterDecl
    BodySynthesizer.deriveBodyErrorType_enum_domain
  let tc := { g.2 with Context := C }
  let p := declareDerivedReadOnlyProperty tc enumDecl Id_domain stringTy stringTy getterDecl
  let propDecl := p.1.1
  let pbDecl := p.1.2
  let tc := p.2
  let C := addMember tc.Context enumDecl getterDecl
  let C := addMember C enumDecl propDecl
  let C := addMember C enumDecl pbDecl
  (propDecl, { tc with Context := C })

/-- Derive `var code: Int`. -/
def deriveErrorType_enum_code (tc : TypeChecker) (enumDecl : DeclId) :
    DeclId × TypeChecker :=
  let intTy := Ty.int
  let enumType := getDeclaredTypeInContext enumDecl
  let g := declareDerivedPropertyGetter tc enumDecl enumType intTy intTy
  let getterDecl := g.1
  let C := setBodySynthesizer g.2.Context getterDecl
    BodySynthesizer.deriveBodyErrorType_enum_code
  let tc := { g.2 with Context := C }
  let p := declareDerivedReadOnlyProperty tc enumDecl Id_code intTy intTy getterDecl
  let propDecl := p.1.1
  let pbDecl := p.1.2
  let tc := p.2
  let C := addMember tc.Context enumDecl getterDecl
  let C := addMember C enumDecl propDecl
  let C := addMember C enumDecl pbDecl
  (propDecl, { tc with Context := C })

/-- The dispatcher `DerivedConformance::deriveErrorType`. -/
def DerivedConformance.deriveErrorType (tc : TypeChecker) (type : DeclId)
    (requirement : ValueDecl) : Option DeclId × TypeChecker :=
  if !canDeriveConformance tc.Context type then
    (none, tc)
  else
    let enumType := type
    if requirement.name = Id_domain then
      let r := deriveErrorType_enum_domain tc enumType
      (some r.1, r.2)
    else if requirement.name = Id_code then
      let r := deriveErrorType_enum_code tc enumType
      (some r.1, r.2)
    else
      (none, tc.diagnose requirement.loc DiagID.broken_errortype_requirement)

/-! ## Observations on synthesized bodies -/

/-- The body a synthesizer attaches when it is invoked on a function
declaration: the body of the function in the resulting context. -/
def builtBody (synth : BodySynthesizer) (C : ASTContext) (fn : DeclId) : Option Stmt :=
  match synth.invoke C fn with
  | some C' => C'.getBody fn
  | none => none

/-- The arms of a body that consists of one switch (no arms otherwise). -/
def Stmt.arms : Stmt → List CaseStmt
  | .BraceStmt [.SwitchStmt _ cases] => cases
  | _ => []

/-- The label items of an arm. -/
def CaseStmt.labelItems : CaseStmt → List CaseLabelItem
  | .create items _ _ => items

/-- The body of an arm. -/
def CaseStmt.body : CaseStmt → Stmt
  | .create _ _ body => body

/-- The enum element the single pattern of an arm refers to. -/
def CaseStmt.patternElement : CaseStmt → Option DeclId
  | .create [item] _ _ =>
    match item.pattern with
    | .EnumElementPattern _ _ elt _ _ => some elt
  | _ => none

/-- The text of the integer literal an arm returns. -/
def CaseStmt.returnedLiteral : CaseStmt → Option String
  | .create _ _ (.BraceStmt [.ReturnStmt (.IntegerLiteralExpr digits _) _]) => some digits
  | _ => none

/-- The arm pushed for the element `elt` when the counter holds `code`. -/
def codeArm (enumType : Ty) (elt : DeclId) (code : Nat) : CaseStmt :=
  CaseStmt.create
    [{ isDefault := false,
       pattern := Pattern.EnumElementPattern enumType "" elt none true,
       guardExpr := none }]
    false
    (Stmt.BraceStmt [Stmt.ReturnStmt (Expr.IntegerLiteralExpr (toString code) true) true])

/-- The arms pushed for a list of elements when the counter starts at `code`. -/
def codeArms (enumType : Ty) : List DeclId → Nat → List CaseStmt
  | [], _ => []
  | elt :: elts, code => codeArm enumType elt code :: codeArms enumType elts ((code + 1) % 2 ^ 32)

/-- Value of a decimal digit character. -/
def digitValue (c : Char) : Option Nat :=
  if 48 ≤ c.toNat ∧ c.toNat ≤ 57 then some (c.toNat - 48) else none

/-- Read decimal digits left to right onto an accumulator. -/
def parseDigits : List Char → Nat → Option Nat
  | [], acc => some acc
  | c :: cs, acc =>
    match digitValue c with
    | some d => parseDigits cs (acc * 10 + d)
    | none => none

/-- The number a non-empty string of decimal digits denotes. -/
def parseDecimal (s : String) : Option Nat :=
  match s.data with
  | [] => none
  | cs => parseDigits cs 0

/-- The ordinal read off an arm: the number its returned literal denotes. -/
def CaseStmt.ordinal (arm : CaseStmt) : Option Nat :=
  match arm.returnedLiteral with
  | some digits => parseDecimal digits
  | none => none

mutual
/-- Whether an expression contains a reference to `self`. -/
def Expr.refersToSelf : Expr → Bool
  | .DeclRefExpr _ _ => true
  | .DynamicTypeExpr base _ _ => base.refersToSelf
  | .InterpolatedStringLiteralExpr segments _ => Expr.anyRefersToSelf segments
  | .IntegerLiteralExpr _ _ => false
/-- Whether one of the expressions contains a reference to `self`. -/
def Expr.anyRefersToSelf : List Expr → Bool
  | [] => false
  | e :: es => e.refersToSelf || Expr.anyRefersToSelf es
end

mutual
/-- Whether a statement contains a switch. -/
def Stmt.hasSwitch : Stmt → Bool
  | .ReturnStmt _ _ => false
  | .BraceStmt elements => Stmt.anyHasSwitch elements
  | .SwitchStmt _ _ => true
/-- Whether one of the statements contains a switch. -/
def Stmt.anyHasSwitch : List Stmt → Bool
  | [] => false
  | s :: ss => s.hasSwitch || Stmt.anyHasSwitch ss
end

mutual
/-- Number of case patterns (label items of arms) in a statement. -/
def Stmt.countPatterns : Stmt → Nat
  | .ReturnStmt _ _ => 0
  | .BraceStmt elements => Stmt.countPatternsList elements
  | .SwitchStmt _ cases => CaseStmt.countPatternsList cases
/-- Number of case patterns in a list of statements. -/
def Stmt.countPatternsList : List Stmt → Nat
  | [] => 0
  | s :: ss => s.countPatterns + Stmt.countPatternsList ss
/-- Number of case patterns in an arm. -/
def CaseStmt.countPatterns : CaseStmt → Nat
  | .create items _ body => items.length + body.countPatterns
/-- Number of case patterns in a list of arms. -/
def CaseStmt.countPatternsList : List CaseStmt → Nat
  | [] => 0
  | c :: cs => c.countPatterns + CaseStmt.countPatternsList cs
end

mutual
/-- Whether a statement contains a reference to `self`. -/
def Stmt.refersToSelf : Stmt → Bool
  | .ReturnStmt result _ => result.refersToSelf
  | .BraceStmt elements => Stmt.anyRefersToSelf elements
  | .SwitchStmt subject cases => subject.refersToSelf || CaseStmt.anyRefersToSelf cases
/-- Whether one of the statements contains a reference to `self`. -/
def Stmt.anyRefersToSelf : List Stmt → Bool
  | [] => false
  | s :: ss => s.refersToSelf || Stmt.anyRefersToSelf ss
/-- Whether an arm contains a reference to `self`, in a guard or in its body. -/
def CaseStmt.refersToSelf : CaseStmt → Bool
  | .create items _ body =>
    items.any (fun item =>
      match item.guardExpr with
      | some g => g.refersToSelf
      | none => false) || body.refersToSelf
/-- Whether one of the arms contains a reference to `self`. -/
def CaseStmt.anyRefersToSelf : List CaseStmt → Bool
  | [] => false
  | c :: cs => c.refersToSelf || CaseStmt.anyRefersToSelf cs
end

/-! ## Evaluation of synthesized bodies

The run-time meaning of the few node kinds the synthesizer produces: a switch
runs its first matching arm, the dynamic type of an enum value is the metatype
of its enum, a metatype renders as the name of its type, and an interpolated
string is the concatenation of its rendered segments. -/

/-- Run-time values. -/
inductive Value where
  | enumCase (type : DeclId) (elt : DeclId)
  | metatype (type : DeclId)
  | int (n : Int)
  | string (s : String)
  deriving DecidableEq, Repr

/-- An activation of the accessor `fn` on the receiver `self`. -/
structure Frame where
  fn : DeclId
  self : Value

/-- How running a statement ends. -/
inductive Outcome where
  | returned (v : Value)
  | completed
  | noMatchingCase
  | stuck
  deriving DecidableEq, Repr

/-- Text of a value inside a string interpolation. -/
def Value.render (C : ASTContext) : Value → Option String
  | .metatype t =>
    match C.getNominal t with
    | some n => some n.name
    | none => none
  | .string s => some s
  | .int n => some (toString n)
  | .enumCase _ _ => none

mutual
/-- Value of an expression in an activation. -/
def Expr.eval (C : ASTContext) (fr : Frame) : Expr → Option Value
  | .DeclRefExpr d _ => if d = fr.fn then some fr.self else none
  | .DynamicTypeExpr base _ _ =>
    match Expr.eval C fr base with
    | some (.enumCase t _) => some (.metatype t)
    | _ => none
  | .InterpolatedStringLiteralExpr segments _ =>
    match Expr.evalSegments C fr segments with
    | some s => some (.string s)
    | none => none
  | .IntegerLiteralExpr digits _ =>
    match parseDecimal digits with
    | some n => some (.int (Int.ofNat n))
    | none => none
/-- Concatenated text of the segments of an interpolation. -/
def Expr.evalSegments (C : ASTContext) (fr : Frame) : List Expr → Option String
  | [] => some ""
  | e :: es =>
    match Expr.eval C fr e, Expr.evalSegments C fr es with
    | some v, some rest =>
      match v.render C with
      | some s => some (s ++ rest)
      | none => none
    | _, _ => none
end

/-- Whether a pattern matches a value: an enum element pattern without
sub-pattern matches the values whose active case is that element. -/
def Pattern.matchesValue : Pattern → Value → Bool
  | .EnumElementPattern _ _ elt none _, .enumCase _ e => decide (elt = e)
  | _, _ => false

/-- Whether an unguarded label item selects the value. -/
def CaseLabelItem.selects (item : CaseLabelItem) (v : Value) : Bool :=
  match item.guardExpr with
  | some _ => false
  | none => item.isDefault || item.pattern.matchesValue v

mutual
/-- Run a statement in an activation. -/
def Stmt.exec (C : ASTContext) (fr : Frame) : Stmt → Outcome
  | .ReturnStmt result _ =>
    match result.eval C fr with
    | some v => .returned v
    | none => .stuck
  | .BraceStmt elements => Stmt.execList C fr elements
  | .SwitchStmt subject cases =>
    match subject.eval C fr with
    | some v => CaseStmt.execFirstMatch C fr v cases
    | none => .stuck
/-- Run statements in sequence until one does not complete normally. -/
def Stmt.execList (C : ASTContext) (fr : Frame) : List Stmt → Outcome
  | [] => .completed
  | s :: ss =>
    match Stmt.exec C fr s with
    | .completed => Stmt.execList C fr ss
    | o => o
/-- Run the first arm one of whose label items selects the value. -/
def CaseStmt.execFirstMatch (C : ASTContext) (fr : Frame) (v : Value) : List CaseStmt → Outcome
  | [] => .noMatchingCase
  | .create items _ body :: rest =>
    if items.any (fun item => item.selects v) then Stmt.exec C fr body
    else CaseStmt.execFirstMatch C fr v rest
end

/-! ## Scenarios of the specification -/

/-- The enum `Color` with the cases `Red`, `Green`, `Blue`: the enum at
address 0, its elements at 1, 2, 3. -/
def colorContext : ASTContext :=
  { decls := [.NominalType { kind := .Enum, name := "Color", members := [1, 2, 3] },
              .EnumElement "Red", .EnumElement "Green", .EnumElement "Blue"],
    diags := [] }

/-- The enum `Never` without cases, at address 0. -/
def neverContext : ASTContext :=
  { decls := [.NominalType { kind := .Enum, name := "Never", members := [] }],
    diags := [] }

/-- A struct `Point` at address 0, with one stored property at address 1. -/
def pointContext : ASTContext :=
  { decls := [.NominalType { kind := .Struct, name := "Point", members := [1] },
              .Var { declContext := 0, name := "x", interfaceType := .int, type := .int,
                     isStatic := false, isLet := false, getter := none, setter := none,
                     implicit := false }],
    diags := [] }

/-- The requirement `code`, declared at location 7. -/
def codeRequirement : ValueDecl := { name := Id_code, loc := some 7 }

/-- The requirement `domain`, declared at location 5. -/
def domainRequirement : ValueDecl := { name := Id_domain, loc := some 5 }

/-- A requirement the synthesizer does not know, declared at location 9. -/
def unknownRequirement : ValueDecl := { name := "userInfo", loc := some 9 }

/-- The context of `Color` after `code` has been derived; the getter is at
address 4, the property at 5, the binding at 6. -/
def colorCodeContext : ASTContext :=
  (DerivedConformance.deriveErrorType { Context := colorContext } 0 codeRequirement).2.Context

/-- The context of `Color` after `domain` has been derived; the getter is at
address 4. -/
def colorDomainContext : ASTContext :=
  (DerivedConformance.deriveErrorType { Context := colorContext } 0 domainRequirement).2.Context

/-- The context of `Never` after `code` has been derived; the getter is at
address 1. -/
def neverCodeContext : ASTContext :=
  (DerivedConformance.deriveErrorType { Context := neverContext } 0 codeRequirement).2.Context

/-- An enum with `count` cases before anything is derived: the enum at
address 0, its elements at 1, ..., count. -/
def wideEnumContext (count : Nat) : ASTContext :=
  { decls := .NominalType { kind := .Enum, name := "Wide", members := List.range' 1 count } ::
      (List.range count).map (fun i => Decl.EnumElement ("c" ++ toString i)),
    diags := [] }

/-- The enum with `count` cases after `code` has been derived: the enum at
address 0, its elements at 1, ..., count, the getter at count + 1, the
property at count + 2, the binding at count + 3. -/
def wideContextOf (count : Nat) : ASTContext :=
  { decls := .NominalType { kind := .Enum, name := "Wide",
                            members := List.range' 1 count ++ [count + 1, count + 2, count + 3] } ::
      ((List.range count).map (fun i => Decl.EnumElement ("c" ++ toString i)) ++
        [.Func { declContext := 0, selfType := .nominal 0, resultInterfaceType := .int,
                 resultType := .int, implicit := true, body := none,
                 bodySynthesizer := some BodySynthesizer.deriveBodyErrorType_enum_code },
         .Var { declContext := 0, name := Id_code, interfaceType := .int, type := .int,
                isStatic := false, isLet := false, getter := some (count + 1), setter := none,
                implicit := true },
         .PatternBinding { declContext := 0, var := count + 2, init := none, implicit := true }]),
    diags := [] }

/-- Closed form of the context after one accessor has been derived for the
nominal type `n` stored at `type`: the getter, the property and the binding
are allocated at the next three addresses and appended to the member list. -/
def derivedContext (C : ASTContext) (type : DeclId) (n : NominalTypeDecl)
    (name : Identifier) (ty : Ty) (synth : BodySynthesizer) : ASTContext :=
  { decls :=
      (C.decls.set type (.NominalType { n with members := (n.members ++
        [C.decls.length, C.decls.length + 1, C.decls.length + 2]) })) ++
      [.Func { declContext := type, selfType := Ty.nominal type,
               resultInterfaceType := ty, resultType := ty, implicit := true,
               body := none, bodySynthesizer := some synth },
       .Var { declContext := type, name := name, interfaceType := ty,
              type := ty, isStatic := false, isLet := false,
              getter := some C.decls.length, setter := none, implicit := true },
       .PatternBinding { declContext := type, var := C.decls.length + 1,
                         init := none, implicit := true }],
    diags := C.diags }

/-- The enum `Palette`, with the same three cases as `Color` (the elements at
1, 2, 3) and one more member, a static property at address 4. -/
def paletteContext : ASTContext :=
  { decls := [.NominalType { kind := .Enum, name := "Palette", members := [1, 2, 3, 4] },
              .EnumElement "Red", .EnumElement "Green", .EnumElement "Blue",
              .Var { declContext := 0, name := "count", interfaceType := .int, type := .int,
                     isStatic := true, isLet := true, getter := none, setter := none,
                     implicit := false }],
    diags := [] }

/-- The context of `Palette` after `code` has been derived; the getter is at
address 5. -/
def paletteCodeContext : ASTContext :=
  (DerivedConformance.deriveErrorType { Context := paletteContext } 0 codeRequirement).2.Context

/-- The context of `Color` after `code` has been derived and the body of its
getter, at address 4, has been built. -/
def colorCodeBuiltContext : ASTContext :=
  match BodySynthesizer.invoke BodySynthesizer.deriveBodyErrorType_enum_code colorCodeContext 4 with
  | some C => C
  | none => colorCodeContext

/-- The type checker after a sequence of derivations on the same type, one per
requirement, in order. -/
def deriveErrorTypeAll (tc : TypeChecker) (type : DeclId) : List ValueDecl → TypeChecker
  | [] => tc
  | requirement :: rest =>
    deriveErrorTypeAll (DerivedConformance.deriveErrorType tc type requirement).2 type rest

/-- Whether a text is a canonical unsigned decimal numeral: not empty, digits
only (so no sign), and no leading zero unless the text is "0". -/
def isCanonicalDecimal (s : String) : Bool :=
  match s.data with
  | [] => false
  | c :: cs => (c :: cs).all (fun d => (digitValue d).isSome) && (c != '0' || cs.isEmpty)

/-! ## Decimal rendering -/

theorem digitValue_digitChar (d : Nat) (h : d < 10) : digitValue (Nat.digitChar d) = some d := by
  interval_cases d <;> decide

theorem parseDigits_append (l1 l2 : List Char) (acc : Nat) :
    parseDigits (l1 ++ l2) acc =
      match parseDigits l1 acc with
      | some a => parseDigits l2 a
      | none => none := by
  induction l1 generalizing acc with
  | nil => simp [parseDigits]
  | cons c cs ih =>
    simp only [List.cons_append, parseDigits]
    cases digitValue c with
    | none => rfl
    | some d => exact ih _

theorem toDigitsCore_append (fuel n : Nat) (ds : List Char) :
    Nat.toDigitsCore 10 fuel n ds = Nat.toDigitsCore 10 fuel n [] ++ ds := by
  induction fuel generalizing n ds with
  | zero => simp [Nat.toDigitsCore]
  | succ f ih =>
    simp only [Nat.toDigitsCore]
    split
    · simp
    · rw [ih (n / 10) (_ :: ds), ih (n / 10) [_]]
      simp

theorem toDigitsCore_ne_nil (fuel n : Nat) (ds : List Char) :
    Nat.toDigitsCore 10 (fuel + 1) n ds ≠ [] := by
  rw [toDigitsCore_append]
  simp only [Nat.toDigitsCore]
  split
  · simp
  · rw [toDigitsCore_append]; simp

theorem parseDigits_toDigitsCore (fuel n : Nat) (h : n < fuel) :
    parseDigits (Nat.toDigitsCore 10 fuel n []) 0 = some n := by
  induction fuel generalizing n with
  | zero => omega
  | succ f ih =>
    simp only [Nat.toDigitsCore]
    split
    · rename_i h0
      have hlt : n < 10 := by omega
      simp [parseDigits, digitValue_digitChar n hlt, Nat.mod_eq_of_lt hlt]
    · rename_i h0
      rw [toDigitsCore_append, parseDigits_append, ih (n / 10) (by omega)]
      simp only [parseDigits, digitValue_digitChar (n % 10) (Nat.mod_lt _ (by decide))]
      congr 1
      omega

theorem parseDecimal_toString (n : Nat) : parseDecimal (toString n) = some n := by
  have hdata : (toString n).data = Nat.toDigitsCore 10 (n + 1) n [] := rfl
  unfold parseDecimal
  rw [hdata]
  have hne := toDigitsCore_ne_nil n n []
  have hp := parseDigits_toDigitsCore (n + 1) n (by omega)
  split
  · rename_i heq; exact absurd heq hne
  · exact hp

/-! ## The loop of the code producer -/

theorem foldl_loop_eq (enumType : Ty) (elts : List DeclId) (st : List CaseStmt × Nat) :
    (elts.foldl (deriveBodyErrorType_enum_code_loop enumType) st).1 =
      st.1 ++ codeArms enumType elts st.2 := by
  induction elts generalizing st with
  | nil => simp [codeArms]
  | cons e es ih =>
    rw [List.foldl_cons, ih]
    simp [deriveBodyErrorType_enum_code_loop, codeArms, codeArm]

theorem codeArms_length (enumType : Ty) (elts : List DeclId) (code : Nat) :
    (codeArms enumType elts code).length = elts.length := by
  induction elts generalizing code with
  | nil => rfl
  | cons e es ih => simp [codeArms, ih]

theorem codeArms_getElem? (enumType : Ty) (elts : List DeclId) (code i : Nat) (c : DeclId)
    (hc : code < 2 ^ 32) (h : elts[i]? = some c) :
    (codeArms enumType elts code)[i]? = some (codeArm enumType c ((code + i) % 2 ^ 32)) := by
  induction elts generalizing code i with
  | nil => simp at h
  | cons e es ih =>
    cases i with
    | zero =>
      simp only [List.getElem?_cons_zero, Option.some.injEq] at h
      rw [Nat.add_zero, Nat.mod_eq_of_lt hc, h]
      simp [codeArms]
    | succ j =>
      simp only [List.getElem?_cons_succ] at h
      simp only [codeArms, List.getElem?_cons_succ]
      rw [ih ((code + 1) % 2 ^ 32) j (Nat.mod_lt _ (by decide)) h]
      congr 2
      omega

theorem getFunc_lt (C : ASTContext) (fn : DeclId) (f : FuncDecl) (h : C.getFunc fn = some f) :
    fn < C.decls.length ∧ C.decls[fn]? = some (Decl.Func f) := by
  unfold ASTContext.getFunc ASTContext.getDecl at h
  split at h
  · rename_i g hg
    simp only [Option.some.injEq] at h
    subst h
    exact ⟨(List.getElem?_eq_some.1 hg).1, hg⟩
  · simp at h

theorem setBody_getBody (C : ASTContext) (fn : DeclId) (f : FuncDecl) (body : Stmt)
    (h : C.getFunc fn = some f) :
    ∃ C', setBody C fn body = some C' ∧ C'.getBody fn = some body ∧ C'.diags = C.diags := by
  obtain ⟨hlt, _⟩ := getFunc_lt C fn f h
  refine ⟨{ C with decls := C.decls.set fn (.Func { f with body := some body }) },
    by simp only [setBody, h], ?_, rfl⟩
  simp [ASTContext.getBody, ASTContext.getFunc, ASTContext.getDecl, hlt]

/-- The statement the code producer wraps in the body block. -/
theorem code_producer_eq (C : ASTContext) (codeDecl : DeclId) (fn : FuncDecl)
    (n : NominalTypeDecl) (hfn : C.getFunc codeDecl = some fn)
    (hn : C.getNominal fn.declContext = some n) (hk : n.kind = NominalKind.Enum) :
    deriveBodyErrorType_enum_code C codeDecl =
      setBody C codeDecl (Stmt.BraceStmt
        [if (getAllElements C fn.declContext) = [] then
            Stmt.ReturnStmt (Expr.IntegerLiteralExpr "0" true) true
          else
            Stmt.SwitchStmt (createSelfDeclRef codeDecl)
              (codeArms (getDeclaredTypeInContext fn.declContext)
                (getAllElements C fn.declContext) 0)]) := by
  simp only [deriveBodyErrorType_enum_code, hfn, hn, hk, foldl_loop_eq, List.nil_append]
  cases hcs : getAllElements C fn.declContext with
  | nil => simp [codeArms]
  | cons e es => simp [codeArms]

theorem builtBody_code (C : ASTContext) (codeDecl : DeclId) (fn : FuncDecl)
    (n : NominalTypeDecl) (hfn : C.getFunc codeDecl = some fn)
    (hn : C.getNominal fn.declContext = some n) (hk : n.kind = NominalKind.Enum) :
    builtBody BodySynthesizer.deriveBodyErrorType_enum_code C codeDecl =
      some (Stmt.BraceStmt
        [if (getAllElements C fn.declContext) = [] then
            Stmt.ReturnStmt (Expr.IntegerLiteralExpr "0" true) true
          else
            Stmt.SwitchStmt (createSelfDeclRef codeDecl)
              (codeArms (getDeclaredTypeInContext fn.declContext)
                (getAllElements C fn.declContext) 0)]) := by
  obtain ⟨C', h1, h2, _⟩ := setBody_getBody C codeDecl fn (Stmt.BraceStmt
        [if (getAllElements C fn.declContext) = [] then
            Stmt.ReturnStmt (Expr.IntegerLiteralExpr "0" true) true
          else
            Stmt.SwitchStmt (createSelfDeclRef codeDecl)
              (codeArms (getDeclaredTypeInContext fn.declContext)
                (getAllElements C fn.declContext) 0)]) hfn
  simp only [builtBody, BodySynthesizer.invoke, code_producer_eq C codeDecl fn n hfn hn hk, h1, h2]

theorem codeArm_ordinal (enumType : Ty) (c : DeclId) (i : Nat) :
    (codeArm enumType c i).patternElement = some c ∧
    (codeArm enumType c i).returnedLiteral = some (toString i) ∧
    (codeArm enumType c i).ordinal = some i := by
  refine ⟨rfl, rfl, ?_⟩
  show parseDecimal (toString i) = some i
  exact parseDecimal_toString i

/-! ## Claims -/

/-- C1: for an enum with N cases, 1 ≤ N < 2^32, the body the code producer
builds has exactly N arms; the i-th arm's pattern refers to the i-th case and
returns the integer literal whose text is the decimal text of i, so the
ordinals read off the arms in order are exactly 0, 1, ..., N-1. -/
theorem code_body_arms_enumerate_cases (C : ASTContext) (codeDecl : DeclId) (fn : FuncDecl)
    (n : NominalTypeDecl) (hfn : C.getFunc codeDecl = some fn)
    (hn : C.getNominal fn.declContext = some n) (hk : n.kind = NominalKind.Enum)
    (h1 : 1 ≤ (getAllElements C fn.declContext).length)
    (h2 : (getAllElements C fn.declContext).length < 2 ^ 32) :
    ∃ body, builtBody BodySynthesizer.deriveBodyErrorType_enum_code C codeDecl = some body ∧
      body.arms.length = (getAllElements C fn.declContext).length ∧
      (∀ i c, (getAllElements C fn.declContext)[i]? = some c →
        ∃ arm : CaseStmt, body.arms[i]? = some arm ∧ arm.patternElement = some c ∧
          arm.returnedLiteral = some (toString i) ∧ arm.ordinal = some i) ∧
      body.arms.map CaseStmt.ordinal =
        (List.range (getAllElements C fn.declContext).length).map some := by
  have hne : getAllElements C fn.declContext ≠ [] := by
    intro h; rw [h] at h1; simp at h1
  have hidx : ∀ i c, (getAllElements C fn.declContext)[i]? = some c →
      (codeArms (getDeclaredTypeInContext fn.declContext)
        (getAllElements C fn.declContext) 0)[i]? =
        some (codeArm (getDeclaredTypeInContext fn.declContext) c i) := by
    intro i c hic
    have hi : i < (getAllElements C fn.declContext).length := (List.getElem?_eq_some.1 hic).1
    have := codeArms_getElem? (getDeclaredTypeInContext fn.declContext) _ 0 i c (by decide) hic
    rw [this, Nat.zero_add, Nat.mod_eq_of_lt (by omega)]
  refine ⟨_, builtBody_code C codeDecl fn n hfn hn hk, ?_, ?_, ?_⟩
  · simp only [if_neg hne, Stmt.arms, codeArms_length]
  · intro i c hic
    refine ⟨codeArm (getDeclaredTypeInContext fn.declContext) c i, ?_,
      codeArm_ordinal (getDeclaredTypeInContext fn.declContext) c i⟩
    simp only [if_neg hne, Stmt.arms]
    exact hidx i c hic
  · simp only [if_neg hne, Stmt.arms]
    apply List.ext_getElem?
    intro i
    simp only [List.getElem?_map]
    by_cases hi : i < (getAllElements C fn.declContext).length
    · have hic : (getAllElements C fn.declContext)[i]? = some ((getAllElements C fn.declContext)[i]) :=
        List.getElem?_eq_getElem hi
      rw [hidx i _ hic, List.getElem?_range hi]
      simp [(codeArm_ordinal _ _ i).2.2]
    · have hlen := codeArms_length (getDeclaredTypeInContext fn.declContext)
        (getAllElements C fn.declContext) 0
      rw [List.getElem?_eq_none (by omega), List.getElem?_eq_none (by simp; omega)]
      rfl

/-- C1 at the enum `Color`, whose three cases get the arms 0, 1, 2. -/
theorem code_body_arms_enumerate_cases_witness :
    ∃ body, builtBody BodySynthesizer.deriveBodyErrorType_enum_code colorCodeContext 4 = some body ∧
      body.arms.length = (getAllElements colorCodeContext 0).length ∧
      (∀ i c, (getAllElements colorCodeContext 0)[i]? = some c →
        ∃ arm : CaseStmt, body.arms[i]? = some arm ∧ arm.patternElement = some c ∧
          arm.returnedLiteral = some (toString i) ∧ arm.ordinal = some i) ∧
      body.arms.map CaseStmt.ordinal =
        (List.range (getAllElements colorCodeContext 0).length).map some :=
  code_body_arms_enumerate_cases colorCodeContext 4
    { declContext := 0, selfType := .nominal 0, resultInterfaceType := .int, resultType := .int,
      implicit := true, body := none,
      bodySynthesizer := some BodySynthesizer.deriveBodyErrorType_enum_code }
    { kind := .Enum, name := "Color", members := [1, 2, 3, 4, 5, 6] }
    (by rfl) (by rfl) (by rfl) (by decide) (by decide)

theorem exec_codeArm_body (C₀ : ASTContext) (fr : Frame) (enumType : Ty) (c : DeclId) (code : Nat) :
    (codeArm enumType c code).body.exec C₀ fr = Outcome.returned (Value.int (Int.ofNat code)) := by
  simp [codeArm, CaseStmt.body, Stmt.exec, Stmt.execList, Expr.eval, parseDecimal_toString]

theorem execFirstMatch_codeArms (C₀ : ASTContext) (fr : Frame) (enumType : Ty) (t : DeclId)
    (elts : List DeclId) (code i : Nat) (c : DeclId) (hnd : elts.Nodup)
    (hc : code < 2 ^ 32) (hic : elts[i]? = some c) :
    CaseStmt.execFirstMatch C₀ fr (Value.enumCase t c) (codeArms enumType elts code) =
      Outcome.returned (Value.int (Int.ofNat ((code + i) % 2 ^ 32))) := by
  induction elts generalizing code i with
  | nil => simp at hic
  | cons e es ih =>
    have hbody := exec_codeArm_body C₀ fr enumType e code
    simp only [codeArm, CaseStmt.body] at hbody
    cases i with
    | zero =>
      simp only [List.getElem?_cons_zero, Option.some.injEq] at hic
      subst hic
      rw [Nat.add_zero, Nat.mod_eq_of_lt hc]
      simp only [codeArms, codeArm, CaseStmt.execFirstMatch]
      simp [CaseLabelItem.selects, Pattern.matchesValue, hbody]
    | succ j =>
      simp only [List.getElem?_cons_succ] at hic
      have hmem : c ∈ es := by
        obtain ⟨hj, hjc⟩ := List.getElem?_eq_some.1 hic
        rw [← hjc]; exact List.getElem_mem _
      have hne : e ≠ c := by
        intro h; subst h; exact (List.nodup_cons.1 hnd).1 hmem
      simp only [codeArms, codeArm, CaseStmt.execFirstMatch]
      simp only [List.any_cons, List.any_nil, CaseLabelItem.selects, Pattern.matchesValue,
        Bool.false_or, Bool.or_false, decide_eq_true_eq, hne, if_false]
      rw [ih ((code + 1) % 2 ^ 32) j (List.nodup_cons.1 hnd).2 (Nat.mod_lt _ (by decide)) hic]
      congr 3
      omega

/-- C2 (amended): for an enum with pairwise distinct cases and at most 2^32
of them, and a value whose active case is the i-th case, running the body the
code producer builds, under first-matching-arm semantics, ends by returning
the non-negative integer i: it does not get stuck, does not fall through the
switch, and does not complete without a return. -/
theorem code_body_returns_ordinal (C C₀ : ASTContext) (codeDecl : DeclId) (fn : FuncDecl)
    (n : NominalTypeDecl) (i : Nat) (c : DeclId)
    (hfn : C.getFunc codeDecl = some fn)
    (hn : C.getNominal fn.declContext = some n) (hk : n.kind = NominalKind.Enum)
    (hnd : (getAllElements C fn.declContext).Nodup)
    (hlen : (getAllElements C fn.declContext).length ≤ 2 ^ 32)
    (hic : (getAllElements C fn.declContext)[i]? = some c) :
    ∃ body, builtBody BodySynthesizer.deriveBodyErrorType_enum_code C codeDecl = some body ∧
      body.exec C₀ { fn := codeDecl, self := Value.enumCase fn.declContext c } =
        Outcome.returned (Value.int (Int.ofNat i)) := by
  have hi : i < (getAllElements C fn.declContext).length := (List.getElem?_eq_some.1 hic).1
  have hne : getAllElements C fn.declContext ≠ [] := by
    intro h; rw [h] at hi; simp at hi
  refine ⟨_, builtBody_code C codeDecl fn n hfn hn hk, ?_⟩
  have hrun := execFirstMatch_codeArms C₀ { fn := codeDecl, self := Value.enumCase fn.declContext c }
    (getDeclaredTypeInContext fn.declContext) fn.declContext _ 0 i c hnd (by decide) hic
  rw [Nat.zero_add, Nat.mod_eq_of_lt (by omega)] at hrun
  simp only [if_neg hne, Stmt.exec, Stmt.execList, createSelfDeclRef, Expr.eval, if_true, hrun]

/-- C2 (amended) at the enum `Color`: `Red` gives 0, `Green` gives 1, `Blue`
gives 2. -/
theorem code_body_returns_ordinal_witness :
    (∃ body, builtBody BodySynthesizer.deriveBodyErrorType_enum_code colorCodeContext 4 =
        some body ∧
      body.exec colorCodeContext { fn := 4, self := Value.enumCase 0 1 } =
        Outcome.returned (Value.int (Int.ofNat 0))) ∧
    (∃ body, builtBody BodySynthesizer.deriveBodyErrorType_enum_code colorCodeContext 4 =
        some body ∧
      body.exec colorCodeContext { fn := 4, self := Value.enumCase 0 2 } =
        Outcome.returned (Value.int (Int.ofNat 1))) ∧
    (∃ body, builtBody BodySynthesizer.deriveBodyErrorType_enum_code colorCodeContext 4 =
        some body ∧
      body.exec colorCodeContext { fn := 4, self := Value.enumCase 0 3 } =
        Outcome.returned (Value.int (Int.ofNat 2))) :=
  ⟨code_body_returns_ordinal colorCodeContext colorCodeContext 4
      { declContext := 0, selfType := .nominal 0, resultInterfaceType := .int, resultType := .int,
        implicit := true, body := none,
        bodySynthesizer := some BodySynthesizer.deriveBodyErrorType_enum_code }
      { kind := .Enum, name := "Color", members := [1, 2, 3, 4, 5, 6] } 0 1
      (by rfl) (by rfl) (by rfl) (by decide) (by decide) (by rfl),
   code_body_returns_ordinal colorCodeContext colorCodeContext 4
      { declContext := 0, selfType := .nominal 0, resultInterfaceType := .int, resultType := .int,
        implicit := true, body := none,
        bodySynthesizer := some BodySynthesizer.deriveBodyErrorType_enum_code }
      { kind := .Enum, name := "Color", members := [1, 2, 3, 4, 5, 6] } 1 2
      (by rfl) (by rfl) (by rfl) (by decide) (by decide) (by rfl),
   code_body_returns_ordinal colorCodeContext colorCodeContext 4
      { declContext := 0, selfType := .nominal 0, resultInterfaceType := .int, resultType := .int,
        implicit := true, body := none,
        bodySynthesizer := some BodySynthesizer.deriveBodyErrorType_enum_code }
      { kind := .Enum, name := "Color", members := [1, 2, 3, 4, 5, 6] } 2 3
      (by rfl) (by rfl) (by rfl) (by decide) (by decide) (by rfl)⟩

/-- C3: for an enum without cases the code producer attaches a block whose
only statement is an unconditional return of the integer literal "0"; the body
contains no switch and no reference to self, and producing it emits no
diagnostic. -/
theorem code_body_of_empty_enum (C : ASTContext) (codeDecl : DeclId) (fn : FuncDecl)
    (n : NominalTypeDecl) (hfn : C.getFunc codeDecl = some fn)
    (hn : C.getNominal fn.declContext = some n) (hk : n.kind = NominalKind.Enum)
    (hempty : getAllElements C fn.declContext = []) :
    ∃ C' body, deriveBodyErrorType_enum_code C codeDecl = some C' ∧
      C'.getBody codeDecl = some body ∧
      body = Stmt.BraceStmt [Stmt.ReturnStmt (Expr.IntegerLiteralExpr "0" true) true] ∧
      body.hasSwitch = false ∧ body.refersToSelf = false ∧
      C'.diags = C.diags := by
  obtain ⟨C', h1, h2, h3⟩ := setBody_getBody C codeDecl fn
    (Stmt.BraceStmt [Stmt.ReturnStmt (Expr.IntegerLiteralExpr "0" true) true]) hfn
  refine ⟨C', _, ?_, h2, rfl, rfl, rfl, h3⟩
  rw [code_producer_eq C codeDecl fn n hfn hn hk, if_pos hempty, h1]

/-- C3 at the enum `Never`. -/
theorem code_body_of_empty_enum_witness :
    ∃ C' body, deriveBodyErrorType_enum_code neverCodeContext 1 = some C' ∧
      C'.getBody 1 = some body ∧
      body = Stmt.BraceStmt [Stmt.ReturnStmt (Expr.IntegerLiteralExpr "0" true) true] ∧
      body.hasSwitch = false ∧ body.refersToSelf = false ∧
      C'.diags = neverCodeContext.diags :=
  code_body_of_empty_enum neverCodeContext 1
    { declContext := 0, selfType := .nominal 0, resultInterfaceType := .int, resultType := .int,
      implicit := true, body := none,
      bodySynthesizer := some BodySynthesizer.deriveBodyErrorType_enum_code }
    { kind := .Enum, name := "Never", members := [1, 2, 3] }
    (by rfl) (by rfl) (by rfl) (by rfl)

theorem getNominal_lt (C : ASTContext) (type : DeclId) (n : NominalTypeDecl)
    (h : C.getNominal type = some n) :
    type < C.decls.length ∧ C.decls[type]? = some (Decl.NominalType n) := by
  unfold ASTContext.getNominal ASTContext.getDecl at h
  split at h
  · rename_i g hg
    simp only [Option.some.injEq] at h
    subst h
    exact ⟨(List.getElem?_eq_some.1 hg).1, hg⟩
  · simp at h

theorem addMember_eq (C : ASTContext) (type member : DeclId) (n : NominalTypeDecl)
    (h : C.decls[type]? = some (Decl.NominalType n)) :
    addMember C type member =
      { C with
        decls := (C.decls.set type (.NominalType { n with members := n.members ++ [member] })) } := by
  simp only [addMember, ASTContext.getNominal, ASTContext.getDecl, h]

theorem addMember_three (C : ASTContext) (type a b c : DeclId) (n : NominalTypeDecl)
    (h : C.decls[type]? = some (Decl.NominalType n)) :
    addMember (addMember (addMember C type a) type b) type c =
      { C with
        decls := (C.decls.set type (.NominalType { n with members := n.members ++ [a, b, c] })) } := by
  have hlt : type < C.decls.length := (List.getElem?_eq_some.1 h).1
  rw [addMember_eq C type a n h]
  rw [addMember_eq _ type b { n with members := n.members ++ [a] }
    (by simp [List.getElem?_set, hlt])]
  rw [addMember_eq _ type c { n with members := n.members ++ [a] ++ [b] }
    (by simp [List.getElem?_set, hlt])]
  simp [List.set_set]

theorem deriveErrorType_enum_code_eq (tc : TypeChecker) (type : DeclId) (n : NominalTypeDecl)
    (hn : tc.Context.getNominal type = some n) :
    deriveErrorType_enum_code tc type =
      (tc.Context.decls.length + 1,
        { Context := derivedContext tc.Context type n Id_code Ty.int
            BodySynthesizer.deriveBodyErrorType_enum_code }) := by
  obtain ⟨hlt, hget⟩ := getNominal_lt _ _ _ hn
  simp only [deriveErrorType_enum_code, declareDerivedPropertyGetter,
    declareDerivedReadOnlyProperty, ASTContext.allocate, setBodySynthesizer,
    getDeclaredTypeInContext, ASTContext.getFunc, ASTContext.getDecl, derivedContext]
  simp only [List.getElem?_append_right (Nat.le_refl _), Nat.sub_self, List.getElem?_cons_zero,
    List.set_append_right _ _ (Nat.le_refl _), List.set_cons_zero, List.length_append,
    List.length_singleton, List.append_assoc, List.singleton_append]
  rw [addMember_three _ type _ _ _ n (by simp [List.getElem?_append_left, hlt, hget])]
  simp [List.set_append_left, hlt]

theorem deriveErrorType_enum_domain_eq (tc : TypeChecker) (type : DeclId) (n : NominalTypeDecl)
    (hn : tc.Context.getNominal type = some n) :
    deriveErrorType_enum_domain tc type =
      (tc.Context.decls.length + 1,
        { Context := derivedContext tc.Context type n Id_domain Ty.string
            BodySynthesizer.deriveBodyErrorType_enum_domain }) := by
  obtain ⟨hlt, hget⟩ := getNominal_lt _ _ _ hn
  simp only [deriveErrorType_enum_domain, declareDerivedPropertyGetter,
    declareDerivedReadOnlyProperty, ASTContext.allocate, setBodySynthesizer,
    getDeclaredTypeInContext, ASTContext.getFunc, ASTContext.getDecl, derivedContext]
  simp only [List.getElem?_append_right (Nat.le_refl _), Nat.sub_self, List.getElem?_cons_zero,
    List.set_append_right _ _ (Nat.le_refl _), List.set_cons_zero, List.length_append,
    List.length_singleton, List.append_assoc, List.singleton_append]
  rw [addMember_three _ type _ _ _ n (by simp [List.getElem?_append_left, hlt, hget])]
  simp [List.set_append_left, hlt]

theorem derivedContext_getMembers (C : ASTContext) (type : DeclId) (n : NominalTypeDecl)
    (name : Identifier) (ty : Ty) (synth : BodySynthesizer)
    (hn : C.getNominal type = some n) :
    (derivedContext C type n name ty synth).getMembers type =
      C.getMembers type ++ [C.decls.length, C.decls.length + 1, C.decls.length + 2] := by
  obtain ⟨hlt, _⟩ := getNominal_lt _ _ _ hn
  have h : (derivedContext C type n name ty synth).getNominal type =
      some { n with members := (n.members ++
        [C.decls.length, C.decls.length + 1, C.decls.length + 2]) } := by
    simp [ASTContext.getNominal, ASTContext.getDecl, derivedContext,
      List.getElem?_append_left, hlt, List.getElem?_set]
  simp only [ASTContext.getMembers, h, hn]

theorem derivedContext_getFunc (C : ASTContext) (type : DeclId) (n : NominalTypeDecl)
    (name : Identifier) (ty : Ty) (synth : BodySynthesizer) :
    (derivedContext C type n name ty synth).getFunc C.decls.length =
      some { declContext := type, selfType := Ty.nominal type,
             resultInterfaceType := ty, resultType := ty, implicit := true,
             body := none, bodySynthesizer := some synth } := by
  have h : (derivedContext C type n name ty synth).decls[C.decls.length]? = some (.Func
      { declContext := type, selfType := Ty.nominal type,
        resultInterfaceType := ty, resultType := ty, implicit := true,
        body := none, bodySynthesizer := some synth }) := by
    simp only [derivedContext]
    rw [List.getElem?_append_right (by simp)]
    simp
  simp only [ASTContext.getFunc, ASTContext.getDecl, h]

theorem derivedContext_getVar (C : ASTContext) (type : DeclId) (n : NominalTypeDecl)
    (name : Identifier) (ty : Ty) (synth : BodySynthesizer) :
    (derivedContext C type n name ty synth).getVar (C.decls.length + 1) =
      some { declContext := type, name := name, interfaceType := ty,
             type := ty, isStatic := false, isLet := false,
             getter := some C.decls.length, setter := none, implicit := true } := by
  have h : (derivedContext C type n name ty synth).decls[C.decls.length + 1]? = some (.Var
      { declContext := type, name := name, interfaceType := ty,
        type := ty, isStatic := false, isLet := false,
        getter := some C.decls.length, setter := none, implicit := true }) := by
    simp only [derivedContext]
    rw [List.getElem?_append_right (by simp)]
    simp
  simp only [ASTContext.getVar, ASTContext.getDecl, h]

theorem derivedContext_getPatternBinding (C : ASTContext) (type : DeclId)
    (n : NominalTypeDecl) (name : Identifier) (ty : Ty) (synth : BodySynthesizer) :
    (derivedContext C type n name ty synth).getPatternBinding (C.decls.length + 2) =
      some { declContext := type, var := C.decls.length + 1, init := none, implicit := true } := by
  have h : (derivedContext C type n name ty synth).decls[C.decls.length + 2]? =
      some (.PatternBinding
        { declContext := type, var := C.decls.length + 1, init := none, implicit := true }) := by
    simp only [derivedContext]
    rw [List.getElem?_append_right (by simp)]
    simp
  simp only [ASTContext.getPatternBinding, ASTContext.getDecl, h]

theorem Id_domain_ne_Id_code : Id_domain ≠ Id_code := by decide

theorem canDeriveConformance_of_enum (C : ASTContext) (type : DeclId) (n : NominalTypeDecl)
    (hn : C.getNominal type = some n) (hk : n.kind = NominalKind.Enum) :
    canDeriveConformance C type = true := by
  simp [canDeriveConformance, hn, hk]

theorem deriveErrorType_domain_eq (tc : TypeChecker) (type : DeclId) (requirement : ValueDecl)
    (n : NominalTypeDecl) (hn : tc.Context.getNominal type = some n)
    (hk : n.kind = NominalKind.Enum) (hname : requirement.name = Id_domain) :
    DerivedConformance.deriveErrorType tc type requirement =
      (some (tc.Context.decls.length + 1),
        { Context := derivedContext tc.Context type n Id_domain Ty.string
            BodySynthesizer.deriveBodyErrorType_enum_domain }) := by
  simp [DerivedConformance.deriveErrorType, canDeriveConformance_of_enum _ _ _ hn hk, hname,
    deriveErrorType_enum_domain_eq tc type n hn]

theorem deriveErrorType_code_eq (tc : TypeChecker) (type : DeclId) (requirement : ValueDecl)
    (n : NominalTypeDecl) (hn : tc.Context.getNominal type = some n)
    (hk : n.kind = NominalKind.Enum) (hname : requirement.name = Id_code) :
    DerivedConformance.deriveErrorType tc type requirement =
      (some (tc.Context.decls.length + 1),
        { Context := derivedContext tc.Context type n Id_code Ty.int
            BodySynthesizer.deriveBodyErrorType_enum_code }) := by
  have hne : ¬ Id_code = Id_domain := fun h => Id_domain_ne_Id_code h.symm
  simp [DerivedConformance.deriveErrorType, canDeriveConformance_of_enum _ _ _ hn hk, hname,
    hne, deriveErrorType_enum_code_eq tc type n hn]

theorem deriveErrorType_unknown_eq (tc : TypeChecker) (type : DeclId) (requirement : ValueDecl)
    (n : NominalTypeDecl) (hn : tc.Context.getNominal type = some n)
    (hk : n.kind = NominalKind.Enum) (hd : requirement.name ≠ Id_domain)
    (hc : requirement.name ≠ Id_code) :
    DerivedConformance.deriveErrorType tc type requirement =
      (none, tc.diagnose requirement.loc DiagID.broken_errortype_requirement) := by
  simp [DerivedConformance.deriveErrorType, canDeriveConformance_of_enum _ _ _ hn hk, hd, hc]

theorem deriveErrorType_ineligible_eq (tc : TypeChecker) (type : DeclId)
    (requirement : ValueDecl) (h : canDeriveConformance tc.Context type = false) :
    DerivedConformance.deriveErrorType tc type requirement = (none, tc) := by
  simp [DerivedConformance.deriveErrorType, h]

/-- C4: on an enum the dispatcher returns a member exactly when the
requirement is named `domain` or `code`; for `domain` the member is the
read-only property `domain` of type String, for `code` the read-only property
`code` of type Int; in both cases it is the property of the appended triple
getter, property, binding (neither the getter nor the binding), and no
diagnostic is emitted. -/
theorem deriveErrorType_returns_property (tc tc' : TypeChecker) (type : DeclId)
    (requirement : ValueDecl) (n : NominalTypeDecl) (res : Option DeclId)
    (hn : tc.Context.getNominal type = some n) (hk : n.kind = NominalKind.Enum)
    (hr : DerivedConformance.deriveErrorType tc type requirement = (res, tc')) :
    (res.isSome = true ↔ requirement.name = Id_domain ∨ requirement.name = Id_code) ∧
    (requirement.name = Id_domain ∨ requirement.name = Id_code →
      ∃ g p b v fg pb, res = some p ∧
        tc'.Context.getMembers type = tc.Context.getMembers type ++ [g, p, b] ∧
        p ≠ g ∧ p ≠ b ∧
        tc'.Context.getFunc g = some fg ∧
        tc'.Context.getVar p = some v ∧
        tc'.Context.getPatternBinding b = some pb ∧
        (requirement.name = Id_domain → v.name = Id_domain ∧ v.type = Ty.string) ∧
        (requirement.name = Id_code → v.name = Id_code ∧ v.type = Ty.int) ∧
        v.interfaceType = v.type ∧ fg.resultType = v.type ∧
        v.getter = some g ∧ v.setter = none ∧
        tc'.Context.diags = tc.Context.diags) := by
  have hne : ¬ Id_code = Id_domain := fun h => Id_domain_ne_Id_code h.symm
  by_cases hd : requirement.name = Id_domain
  · rw [deriveErrorType_domain_eq tc type requirement n hn hk hd] at hr
    simp only [Prod.mk.injEq] at hr
    obtain ⟨hres, htc⟩ := hr
    subst hres; subst htc
    refine ⟨by simp [hd], fun _ => ⟨_, _, _, _, _, _, rfl,
      derivedContext_getMembers _ _ _ _ _ _ hn,
      (by show (_ : Nat) ≠ _; omega), (by show (_ : Nat) ≠ _; omega),
      derivedContext_getFunc _ _ _ _ _ _, derivedContext_getVar _ _ _ _ _ _,
      derivedContext_getPatternBinding _ _ _ _ _ _, fun _ => ⟨rfl, rfl⟩,
      fun h => absurd (hd.symm.trans h) Id_domain_ne_Id_code, rfl, rfl, rfl, rfl, rfl⟩⟩
  · by_cases hc : requirement.name = Id_code
    · rw [deriveErrorType_code_eq tc type requirement n hn hk hc] at hr
      simp only [Prod.mk.injEq] at hr
      obtain ⟨hres, htc⟩ := hr
      subst hres; subst htc
      refine ⟨by simp [hc], fun _ => ⟨_, _, _, _, _, _, rfl,
        derivedContext_getMembers _ _ _ _ _ _ hn,
      (by show (_ : Nat) ≠ _; omega), (by show (_ : Nat) ≠ _; omega),
        derivedContext_getFunc _ _ _ _ _ _, derivedContext_getVar _ _ _ _ _ _,
        derivedContext_getPatternBinding _ _ _ _ _ _, fun h => absurd h hd,
        fun _ => ⟨rfl, rfl⟩, rfl, rfl, rfl, rfl, rfl⟩⟩
    · rw [deriveErrorType_unknown_eq tc type requirement n hn hk hd hc] at hr
      simp only [Prod.mk.injEq] at hr
      obtain ⟨hres, _⟩ := hr
      subst hres
      exact ⟨by simp [hd, hc], fun h => absurd h (by simp [hd, hc])⟩

/-- C4 at the enum `Color` and the requirement `code`: the dispatcher returns
the property at address 5. -/
theorem deriveErrorType_returns_property_witness :
    ((some 5 : Option DeclId).isSome = true ↔
      codeRequirement.name = Id_domain ∨ codeRequirement.name = Id_code) ∧
    (codeRequirement.name = Id_domain ∨ codeRequirement.name = Id_code →
      ∃ g p b v fg pb, (some 5 : Option DeclId) = some p ∧
        colorCodeContext.getMembers 0 = colorContext.getMembers 0 ++ [g, p, b] ∧
        p ≠ g ∧ p ≠ b ∧
        colorCodeContext.getFunc g = some fg ∧
        colorCodeContext.getVar p = some v ∧
        colorCodeContext.getPatternBinding b = some pb ∧
        (codeRequirement.name = Id_domain → v.name = Id_domain ∧ v.type = Ty.string) ∧
        (codeRequirement.name = Id_code → v.name = Id_code ∧ v.type = Ty.int) ∧
        v.interfaceType = v.type ∧ fg.resultType = v.type ∧
        v.getter = some g ∧ v.setter = none ∧
        colorCodeContext.diags = colorContext.diags) :=
  deriveErrorType_returns_property { Context := colorContext } { Context := colorCodeContext } 0
    codeRequirement { kind := .Enum, name := "Color", members := [1, 2, 3] } (some 5)
    (by rfl) (by rfl) (by rfl)

theorem canDeriveConformance_iff (C : ASTContext) (type : DeclId) :
    canDeriveConformance C type = true ↔
      ∃ n, C.getNominal type = some n ∧ n.kind = NominalKind.Enum := by
  unfold canDeriveConformance
  cases h : C.getNominal type with
  | none => simp
  | some n => simp

/-- C5: on an enum, a requirement named neither `domain` nor `code` yields no
member and exactly one diagnostic, of kind `broken_errortype_requirement`, at
the location of the requirement; the member list of the enum is unchanged. -/
theorem deriveErrorType_unknown_requirement (tc tc' : TypeChecker) (type : DeclId)
    (requirement : ValueDecl) (n : NominalTypeDecl) (res : Option DeclId)
    (hn : tc.Context.getNominal type = some n) (hk : n.kind = NominalKind.Enum)
    (hd : requirement.name ≠ Id_domain) (hc : requirement.name ≠ Id_code)
    (hr : DerivedConformance.deriveErrorType tc type requirement = (res, tc')) :
    res = none ∧
    tc'.Context.diags = tc.Context.diags ++
      [{ loc := requirement.loc, id := DiagID.broken_errortype_requirement }] ∧
    tc'.Context.getMembers type = tc.Context.getMembers type ∧
    tc'.Context.decls = tc.Context.decls := by
  rw [deriveErrorType_unknown_eq tc type requirement n hn hk hd hc] at hr
  simp only [Prod.mk.injEq] at hr
  obtain ⟨hres, htc⟩ := hr
  subst hres; subst htc
  exact ⟨rfl, rfl, rfl, rfl⟩

/-- C5 at the enum `Color` and a requirement named `userInfo`. -/
theorem deriveErrorType_unknown_requirement_witness :
    (none : Option DeclId) = none ∧
    (TypeChecker.diagnose { Context := colorContext } (some 9)
        DiagID.broken_errortype_requirement).Context.diags =
      colorContext.diags ++
        [{ loc := unknownRequirement.loc, id := DiagID.broken_errortype_requirement }] ∧
    (TypeChecker.diagnose { Context := colorContext } (some 9)
        DiagID.broken_errortype_requirement).Context.getMembers 0 =
      colorContext.getMembers 0 ∧
    (TypeChecker.diagnose { Context := colorContext } (some 9)
        DiagID.broken_errortype_requirement).Context.decls = colorContext.decls :=
  deriveErrorType_unknown_requirement { Context := colorContext }
    (TypeChecker.diagnose { Context := colorContext } (some 9)
      DiagID.broken_errortype_requirement) 0
    unknownRequirement { kind := .Enum, name := "Color", members := [1, 2, 3] } none
    (by rfl) (by rfl) (by decide) (by decide) (by rfl)

/-- C6: the eligibility gate accepts a nominal type exactly when it is an
enum; for a nominal type that is not an enum the dispatcher, whatever the
requirement is named, returns no member and leaves the type checker as it was:
no diagnostic is emitted and the member list is unchanged. -/
theorem deriveErrorType_ineligible (tc : TypeChecker) (type : DeclId) (n : NominalTypeDecl)
    (hn : tc.Context.getNominal type = some n) :
    (canDeriveConformance tc.Context type = true ↔ n.kind = NominalKind.Enum) ∧
    (n.kind ≠ NominalKind.Enum → ∀ requirement : ValueDecl,
      DerivedConformance.deriveErrorType tc type requirement = (none, tc) ∧
      (DerivedConformance.deriveErrorType tc type requirement).2.Context.diags =
        tc.Context.diags ∧
      (DerivedConformance.deriveErrorType tc type requirement).2.Context.getMembers type =
        tc.Context.getMembers type) := by
  have hiff : canDeriveConformance tc.Context type = true ↔ n.kind = NominalKind.Enum := by
    simp [canDeriveConformance, hn]
  refine ⟨hiff, fun hk requirement => ?_⟩
  have hfalse : canDeriveConformance tc.Context type = false := by
    cases h : canDeriveConformance tc.Context type with
    | false => rfl
    | true => exact absurd (hiff.1 h) hk
  rw [deriveErrorType_ineligible_eq tc type requirement hfalse]
  exact ⟨rfl, rfl, rfl⟩

/-- C6 at the struct `Point`: the gate rejects it and nothing is derived for
`code`, `domain` or any other requirement. -/
theorem deriveErrorType_ineligible_witness :
    (canDeriveConformance pointContext 0 = true ↔ NominalKind.Struct = NominalKind.Enum) ∧
    (NominalKind.Struct ≠ NominalKind.Enum → ∀ requirement : ValueDecl,
      DerivedConformance.deriveErrorType { Context := pointContext } 0 requirement =
        (none, { Context := pointContext }) ∧
      (DerivedConformance.deriveErrorType { Context := pointContext } 0
        requirement).2.Context.diags = pointContext.diags ∧
      (DerivedConformance.deriveErrorType { Context := pointContext } 0
        requirement).2.Context.getMembers 0 = pointContext.getMembers 0) :=
  deriveErrorType_ineligible { Context := pointContext } 0
    { kind := .Struct, name := "Point", members := [1] } (by rfl)

/-- C7: after any call of the dispatcher the member list of the type is either
the old list, when no member is returned, or the old list followed by the
getter, the property and the binding, in that order, when the property is
returned; the property's getter is that getter and the binding binds that
property; so the list grows by none or by three declarations. -/
theorem deriveErrorType_appends_triple_or_nothing (tc tc' : TypeChecker) (type : DeclId)
    (requirement : ValueDecl) (res : Option DeclId)
    (hr : DerivedConformance.deriveErrorType tc type requirement = (res, tc')) :
    (res = none → tc'.Context.getMembers type = tc.Context.getMembers type) ∧
    (∀ p, res = some p → ∃ g b fg v pb,
      tc'.Context.getMembers type = tc.Context.getMembers type ++ [g, p, b] ∧
      tc'.Context.getFunc g = some fg ∧
      tc'.Context.getVar p = some v ∧ v.getter = some g ∧
      tc'.Context.getPatternBinding b = some pb ∧ pb.var = p) ∧
    ((tc'.Context.getMembers type).length = (tc.Context.getMembers type).length ∨
      (tc'.Context.getMembers type).length = (tc.Context.getMembers type).length + 3) := by
  cases hcan : canDeriveConformance tc.Context type with
  | false =>
    rw [deriveErrorType_ineligible_eq tc type requirement hcan] at hr
    simp only [Prod.mk.injEq] at hr
    obtain ⟨hres, htc⟩ := hr
    subst hres; subst htc
    exact ⟨fun _ => rfl, fun p hp => by simp at hp, Or.inl rfl⟩
  | true =>
    obtain ⟨n, hn, hk⟩ := (canDeriveConformance_iff _ _).1 hcan
    by_cases hd : requirement.name = Id_domain
    · rw [deriveErrorType_domain_eq tc type requirement n hn hk hd] at hr
      simp only [Prod.mk.injEq] at hr
      obtain ⟨hres, htc⟩ := hr
      subst hres; subst htc
      have hm := derivedContext_getMembers tc.Context type n Id_domain Ty.string
        BodySynthesizer.deriveBodyErrorType_enum_domain hn
      refine ⟨fun h => by simp at h, fun p hp => ?_, Or.inr (by simp [hm])⟩
      simp only [Option.some.injEq] at hp
      subst hp
      exact ⟨_, _, _, _, _, hm, derivedContext_getFunc _ _ _ _ _ _,
        derivedContext_getVar _ _ _ _ _ _, rfl, derivedContext_getPatternBinding _ _ _ _ _ _, rfl⟩
    · by_cases hc : requirement.name = Id_code
      · rw [deriveErrorType_code_eq tc type requirement n hn hk hc] at hr
        simp only [Prod.mk.injEq] at hr
        obtain ⟨hres, htc⟩ := hr
        subst hres; subst htc
        have hm := derivedContext_getMembers tc.Context type n Id_code Ty.int
          BodySynthesizer.deriveBodyErrorType_enum_code hn
        refine ⟨fun h => by simp at h, fun p hp => ?_, Or.inr (by simp [hm])⟩
        simp only [Option.some.injEq] at hp
        subst hp
        exact ⟨_, _, _, _, _, hm, derivedContext_getFunc _ _ _ _ _ _,
          derivedContext_getVar _ _ _ _ _ _, rfl, derivedContext_getPatternBinding _ _ _ _ _ _,
          rfl⟩
      · rw [deriveErrorType_unknown_eq tc type requirement n hn hk hd hc] at hr
        simp only [Prod.mk.injEq] at hr
        obtain ⟨hres, htc⟩ := hr
        subst hres; subst htc
        exact ⟨fun _ => rfl, fun p hp => by simp at hp, Or.inl rfl⟩

/-- C7 at the enum `Color` and the requirement `domain`: the member list grows
from three to six declarations. -/
theorem deriveErrorType_appends_triple_or_nothing_witness :
    ((some 5 : Option DeclId) = none →
      colorDomainContext.getMembers 0 = colorContext.getMembers 0) ∧
    (∀ p, (some 5 : Option DeclId) = some p → ∃ g b fg v pb,
      colorDomainContext.getMembers 0 = colorContext.getMembers 0 ++ [g, p, b] ∧
      colorDomainContext.getFunc g = some fg ∧
      colorDomainContext.getVar p = some v ∧ v.getter = some g ∧
      colorDomainContext.getPatternBinding b = some pb ∧ pb.var = p) ∧
    ((colorDomainContext.getMembers 0).length = (colorContext.getMembers 0).length ∨
      (colorDomainContext.getMembers 0).length = (colorContext.getMembers 0).length + 3) :=
  deriveErrorType_appends_triple_or_nothing { Context := colorContext }
    { Context := colorDomainContext } 0 domainRequirement (some 5) (by rfl)

theorem derivedContext_getNominal (C : ASTContext) (type : DeclId) (n : NominalTypeDecl)
    (name : Identifier) (ty : Ty) (synth : BodySynthesizer)
    (hn : C.getNominal type = some n) :
    (derivedContext C type n name ty synth).getNominal type =
      some { n with members := (n.members ++
        [C.decls.length, C.decls.length + 1, C.decls.length + 2]) } := by
  obtain ⟨hlt, _⟩ := getNominal_lt _ _ _ hn
  simp [ASTContext.getNominal, ASTContext.getDecl, derivedContext,
    List.getElem?_append_left, hlt, List.getElem?_set]

theorem derivedContext_isEnumElement (C : ASTContext) (type : DeclId) (n : NominalTypeDecl)
    (name : Identifier) (ty : Ty) (synth : BodySynthesizer)
    (hn : C.getNominal type = some n) (j : Nat) :
    (derivedContext C type n name ty synth).isEnumElement j = C.isEnumElement j := by
  obtain ⟨hlt, hget⟩ := getNominal_lt _ _ _ hn
  by_cases hj : j < C.decls.length
  · by_cases hjt : j = type
    · subst hjt
      simp [ASTContext.isEnumElement, ASTContext.getDecl, derivedContext,
        List.getElem?_append_left, hj, List.getElem?_set, hget]
    · have hne : type ≠ j := fun h => hjt h.symm
      simp [ASTContext.isEnumElement, ASTContext.getDecl, derivedContext,
        List.getElem?_append_left, hj, List.getElem?_set, hne]
  · have hj' : C.decls.length ≤ j := Nat.le_of_not_lt hj
    have hnone : C.decls[j]? = none := List.getElem?_eq_none hj'
    have h3 : j - C.decls.length = 0 ∨ j - C.decls.length = 1 ∨ j - C.decls.length = 2 ∨
        3 ≤ j - C.decls.length := by omega
    simp only [ASTContext.isEnumElement, ASTContext.getDecl, derivedContext, hnone]
    rw [List.getElem?_append_right (by simp; omega)]
    simp only [List.length_set]
    rcases h3 with h | h | h | h
    · rw [h]; rfl
    · rw [h]; rfl
    · rw [h]; rfl
    · rw [List.getElem?_eq_none (by simp; omega)]

theorem derivedContext_getAllElements (C : ASTContext) (type : DeclId) (n : NominalTypeDecl)
    (name : Identifier) (ty : Ty) (synth : BodySynthesizer)
    (hn : C.getNominal type = some n) :
    getAllElements (derivedContext C type n name ty synth) type = getAllElements C type := by
  have hfun : (derivedContext C type n name ty synth).isEnumElement = C.isEnumElement :=
    funext (derivedContext_isEnumElement C type n name ty synth hn)
  have hnew : [C.decls.length, C.decls.length + 1, C.decls.length + 2].filter
      C.isEnumElement = [] := by
    have hnone : ∀ j, C.decls.length ≤ j → C.isEnumElement j = false := by
      intro j hj
      simp [ASTContext.isEnumElement, ASTContext.getDecl, List.getElem?_eq_none hj]
    simp [List.filter, hnone]
  rw [getAllElements, derivedContext_getMembers C type n name ty synth hn, hfun,
    List.filter_append, hnew, List.append_nil, getAllElements]

theorem builtBody_domain (C : ASTContext) (domainDecl : DeclId) (fn : FuncDecl)
    (hfn : C.getFunc domainDecl = some fn) :
    builtBody BodySynthesizer.deriveBodyErrorType_enum_domain C domainDecl =
      some (Stmt.BraceStmt [Stmt.ReturnStmt (Expr.InterpolatedStringLiteralExpr
        [Expr.DynamicTypeExpr (createSelfDeclRef domainDecl) none true] true) true]) := by
  obtain ⟨C', h1, h2, _⟩ := setBody_getBody C domainDecl fn
    (Stmt.BraceStmt [Stmt.ReturnStmt (Expr.InterpolatedStringLiteralExpr
      [Expr.DynamicTypeExpr (createSelfDeclRef domainDecl) none true] true) true]) hfn
  simp only [builtBody, BodySynthesizer.invoke, deriveBodyErrorType_enum_domain, h1, h2]

theorem wideContextOf_eq_derived (count : Nat) :
    DerivedConformance.deriveErrorType { Context := wideEnumContext count } 0 codeRequirement =
      (some (count + 2), { Context := wideContextOf count }) := by
  have hn : (wideEnumContext count).getNominal 0 =
      some { kind := .Enum, name := "Wide", members := List.range' 1 count } := by
    simp [wideEnumContext, ASTContext.getNominal, ASTContext.getDecl]
  have hlen : (wideEnumContext count).decls.length = count + 1 := by
    simp [wideEnumContext]
  rw [deriveErrorType_code_eq { Context := wideEnumContext count } 0 codeRequirement _ hn rfl rfl]
  simp only [derivedContext, hlen]
  simp [wideEnumContext, wideContextOf]

theorem wideContextOf_getFunc (count : Nat) :
    (wideContextOf count).getFunc (count + 1) =
      some { declContext := 0, selfType := .nominal 0, resultInterfaceType := .int,
             resultType := .int, implicit := true, body := none,
             bodySynthesizer := some BodySynthesizer.deriveBodyErrorType_enum_code } := by
  have h : (wideContextOf count).decls[count + 1]? = some (.Func
      { declContext := 0, selfType := .nominal 0, resultInterfaceType := .int,
        resultType := .int, implicit := true, body := none,
        bodySynthesizer := some BodySynthesizer.deriveBodyErrorType_enum_code }) := by
    simp only [wideContextOf, List.getElem?_cons_succ]
    rw [List.getElem?_append_right (by simp)]
    simp
  simp only [ASTContext.getFunc, ASTContext.getDecl, h]

theorem wideContextOf_getNominal (count : Nat) :
    (wideContextOf count).getNominal 0 =
      some { kind := .Enum, name := "Wide",
             members := List.range' 1 count ++ [count + 1, count + 2, count + 3] } := by
  simp [wideContextOf, ASTContext.getNominal, ASTContext.getDecl]

theorem wideContextOf_isEnumElement (count k : Nat) :
    (wideContextOf count).isEnumElement k = decide (1 ≤ k ∧ k ≤ count) := by
  cases k with
  | zero => simp [wideContextOf, ASTContext.isEnumElement, ASTContext.getDecl]
  | succ j =>
    by_cases hj : j < count
    · simp [wideContextOf, ASTContext.isEnumElement, ASTContext.getDecl,
        List.getElem?_append_left, hj, List.getElem?_range]
      omega
    · have h3 : j - count = 0 ∨ j - count = 1 ∨ j - count = 2 ∨ 3 ≤ j - count := by omega
      have hdec : decide (1 ≤ j + 1 ∧ j + 1 ≤ count) = false := by
        simp; omega
      rw [hdec]
      simp only [wideContextOf, ASTContext.isEnumElement, ASTContext.getDecl,
        List.getElem?_cons_succ]
      rw [List.getElem?_append_right (by simp; omega)]
      simp only [List.length_map, List.length_range]
      rcases h3 with h | h | h | h
      · rw [h]; rfl
      · rw [h]; rfl
      · rw [h]; rfl
      · rw [List.getElem?_eq_none (by simp; omega)]

theorem wideContextOf_getAllElements (count : Nat) :
    getAllElements (wideContextOf count) 0 = List.range' 1 count := by
  have hm : (wideContextOf count).getMembers 0 =
      List.range' 1 count ++ [count + 1, count + 2, count + 3] := by
    simp only [ASTContext.getMembers, wideContextOf_getNominal]
  rw [getAllElements, hm, List.filter_append]
  have h1 : (List.range' 1 count).filter (wideContextOf count).isEnumElement =
      List.range' 1 count := by
    rw [List.filter_eq_self]
    intro a ha
    rw [wideContextOf_isEnumElement]
    simp only [List.mem_range'_1] at ha
    simp; omega
  have h2 : [count + 1, count + 2, count + 3].filter (wideContextOf count).isEnumElement = [] := by
    simp [List.filter, wideContextOf_isEnumElement]
  rw [h1, h2, List.append_nil]

theorem wideContextOf_exec (count : Nat) (h : 2 ^ 32 < count) :
    (getAllElements (wideContextOf count) 0).Nodup ∧
    (getAllElements (wideContextOf count) 0)[2 ^ 32]? = some (2 ^ 32 + 1) ∧
    ∃ body, builtBody BodySynthesizer.deriveBodyErrorType_enum_code (wideContextOf count)
        (count + 1) = some body ∧
      body.exec (wideContextOf count)
        { fn := count + 1, self := Value.enumCase 0 (2 ^ 32 + 1) } =
        Outcome.returned (Value.int 0) := by
  have hel := wideContextOf_getAllElements count
  have hnd : (getAllElements (wideContextOf count) 0).Nodup := by
    rw [hel]; exact List.nodup_range' 1 _
  have hic : (getAllElements (wideContextOf count) 0)[2 ^ 32]? = some (2 ^ 32 + 1) := by
    rw [hel, List.getElem?_range' _ _ h, Nat.one_mul, Nat.add_comm]
  have hne : getAllElements (wideContextOf count) 0 ≠ [] := by
    intro h0; rw [h0] at hic; simp at hic
  have hbody := builtBody_code (wideContextOf count) (count + 1) _ _
    (wideContextOf_getFunc count) (wideContextOf_getNominal count) rfl
  have hrun := execFirstMatch_codeArms (wideContextOf count)
    { fn := count + 1, self := Value.enumCase 0 (2 ^ 32 + 1) }
    (getDeclaredTypeInContext 0) 0 _ 0 (2 ^ 32) (2 ^ 32 + 1) hnd (by decide) hic
  rw [Nat.zero_add, Nat.mod_self] at hrun
  simp only [if_neg hne] at hbody
  refine ⟨hnd, hic, _, hbody, ?_⟩
  simp only [Stmt.exec, Stmt.execList, createSelfDeclRef, Expr.eval, if_true, hrun]
  rfl

/-- C2 (as stated, without a bound on the number of cases) fails: derive `code`
for an enum with 2^32 + 1 pairwise distinct cases; the counter has wrapped when
the last case, the one at position 2^32, gets its arm, so the body returns 0
for a value of that case and not 2^32. -/
theorem code_body_counter_wraps :
    DerivedConformance.deriveErrorType { Context := wideEnumContext (2 ^ 32 + 1) } 0
        codeRequirement =
      (some (2 ^ 32 + 1 + 2), { Context := wideContextOf (2 ^ 32 + 1) }) ∧
    (getAllElements (wideContextOf (2 ^ 32 + 1)) 0).Nodup ∧
    (getAllElements (wideContextOf (2 ^ 32 + 1)) 0)[2 ^ 32]? = some (2 ^ 32 + 1) ∧
    ∃ body, builtBody BodySynthesizer.deriveBodyErrorType_enum_code (wideContextOf (2 ^ 32 + 1))
        (2 ^ 32 + 1 + 1) = some body ∧
      body.exec (wideContextOf (2 ^ 32 + 1))
        { fn := 2 ^ 32 + 1 + 1, self := Value.enumCase 0 (2 ^ 32 + 1) } =
        Outcome.returned (Value.int 0) ∧
      body.exec (wideContextOf (2 ^ 32 + 1))
        { fn := 2 ^ 32 + 1 + 1, self := Value.enumCase 0 (2 ^ 32 + 1) } ≠
        Outcome.returned (Value.int (2 ^ 32)) := by
  obtain ⟨h1, h2, body, h3, h4⟩ := wideContextOf_exec (2 ^ 32 + 1) (Nat.lt_succ_self _)
  refine ⟨wideContextOf_eq_derived _, h1, h2, body, h3, h4, ?_⟩
  rw [h4]
  intro h
  have h' : (0 : Int) = 2 ^ 32 := Value.int.inj (Outcome.returned.inj h)
  norm_num at h'

/-- C8: right after a successful derivation the appended getter has no body
and carries a registered body producer: the domain producer when the
requirement is `domain`, the code producer when it is `code`.  The body is
attached when that producer is invoked on the getter, and it is then the body
of that accessor: the return of the interpolated dynamic type of self for
`domain`, and for `code` the switch over the cases the enum had before the
derivation (the return of 0 when it had none). -/
theorem deriveErrorType_registers_lazy_body (tc tc' : TypeChecker) (type : DeclId)
    (requirement : ValueDecl) (p : DeclId)
    (hr : DerivedConformance.deriveErrorType tc type requirement = (some p, tc')) :
    ∃ g v fg, tc'.Context.getVar p = some v ∧ v.getter = some g ∧
      tc'.Context.getFunc g = some fg ∧
      fg.body = none ∧ tc'.Context.getBody g = none ∧
      (requirement.name = Id_domain →
        fg.bodySynthesizer = some BodySynthesizer.deriveBodyErrorType_enum_domain ∧
        builtBody BodySynthesizer.deriveBodyErrorType_enum_domain tc'.Context g =
          some (Stmt.BraceStmt [Stmt.ReturnStmt (Expr.InterpolatedStringLiteralExpr
            [Expr.DynamicTypeExpr (createSelfDeclRef g) none true] true) true])) ∧
      (requirement.name = Id_code →
        fg.bodySynthesizer = some BodySynthesizer.deriveBodyErrorType_enum_code ∧
        builtBody BodySynthesizer.deriveBodyErrorType_enum_code tc'.Context g =
          some (Stmt.BraceStmt
            [if getAllElements tc.Context type = [] then
                Stmt.ReturnStmt (Expr.IntegerLiteralExpr "0" true) true
              else
                Stmt.SwitchStmt (createSelfDeclRef g)
                  (codeArms (Ty.nominal type) (getAllElements tc.Context type) 0)])) ∧
      (∃ synth, fg.bodySynthesizer = some synth ∧ builtBody synth tc'.Context g ≠ none) := by
  cases hcan : canDeriveConformance tc.Context type with
  | false =>
    rw [deriveErrorType_ineligible_eq tc type requirement hcan] at hr
    simp at hr
  | true =>
    obtain ⟨n, hn, hk⟩ := (canDeriveConformance_iff _ _).1 hcan
    by_cases hd : requirement.name = Id_domain
    · rw [deriveErrorType_domain_eq tc type requirement n hn hk hd] at hr
      simp only [Prod.mk.injEq, Option.some.injEq] at hr
      obtain ⟨hres, htc⟩ := hr
      subst hres; subst htc
      have hg := derivedContext_getFunc tc.Context type n Id_domain Ty.string
        BodySynthesizer.deriveBodyErrorType_enum_domain
      have hb := builtBody_domain _ _ _ hg
      refine ⟨_, _, _, derivedContext_getVar _ _ _ _ _ _, rfl, hg, rfl, ?_,
        fun _ => ⟨rfl, hb⟩, fun h => absurd (hd.symm.trans h) Id_domain_ne_Id_code,
        ⟨_, rfl, by rw [hb]; simp⟩⟩
      simp only [ASTContext.getBody, hg]
    · by_cases hc : requirement.name = Id_code
      · rw [deriveErrorType_code_eq tc type requirement n hn hk hc] at hr
        simp only [Prod.mk.injEq, Option.some.injEq] at hr
        obtain ⟨hres, htc⟩ := hr
        subst hres; subst htc
        have hg := derivedContext_getFunc tc.Context type n Id_code Ty.int
          BodySynthesizer.deriveBodyErrorType_enum_code
        have hb := builtBody_code _ _ _ _ hg
          (derivedContext_getNominal tc.Context type n Id_code Ty.int
            BodySynthesizer.deriveBodyErrorType_enum_code hn) hk
        simp only [derivedContext_getAllElements tc.Context type n Id_code Ty.int
          BodySynthesizer.deriveBodyErrorType_enum_code hn, getDeclaredTypeInContext] at hb
        refine ⟨_, _, _, derivedContext_getVar _ _ _ _ _ _, rfl, hg, rfl, ?_,
          fun h => absurd h hd, fun _ => ⟨rfl, hb⟩, ⟨_, rfl, by rw [hb]; simp⟩⟩
        simp only [ASTContext.getBody, hg]
      · rw [deriveErrorType_unknown_eq tc type requirement n hn hk hd hc] at hr
        simp at hr

/-- C8 at the enum `Color` and the requirement `code`: the getter at address 4
is registered with the code producer and gets its body only on invocation. -/
theorem deriveErrorType_registers_lazy_body_witness :
    ∃ g v fg, colorCodeContext.getVar 5 = some v ∧ v.getter = some g ∧
      colorCodeContext.getFunc g = some fg ∧
      fg.body = none ∧ colorCodeContext.getBody g = none ∧
      (codeRequirement.name = Id_domain →
        fg.bodySynthesizer = some BodySynthesizer.deriveBodyErrorType_enum_domain ∧
        builtBody BodySynthesizer.deriveBodyErrorType_enum_domain colorCodeContext g =
          some (Stmt.BraceStmt [Stmt.ReturnStmt (Expr.InterpolatedStringLiteralExpr
            [Expr.DynamicTypeExpr (createSelfDeclRef g) none true] true) true])) ∧
      (codeRequirement.name = Id_code →
        fg.bodySynthesizer = some BodySynthesizer.deriveBodyErrorType_enum_code ∧
        builtBody BodySynthesizer.deriveBodyErrorType_enum_code colorCodeContext g =
          some (Stmt.BraceStmt
            [if getAllElements colorContext 0 = [] then
                Stmt.ReturnStmt (Expr.IntegerLiteralExpr "0" true) true
              else
                Stmt.SwitchStmt (createSelfDeclRef g)
                  (codeArms (Ty.nominal 0) (getAllElements colorContext 0) 0)])) ∧
      (∃ synth, fg.bodySynthesizer = some synth ∧ builtBody synth colorCodeContext g ≠ none) :=
  deriveErrorType_registers_lazy_body { Context := colorContext } { Context := colorCodeContext }
    0 codeRequirement 5 (by rfl)

/-- C9: for every enum, whatever its cases, the domain producer attaches a
block whose sole statement returns an interpolated string literal with exactly
one segment, the dynamic type of self; the body contains no switch and no case
pattern, and it is the same term in any other context, so it does not depend
on the case list. -/
theorem domain_body_shape (C : ASTContext) (domainDecl : DeclId) (fn : FuncDecl)
    (hfn : C.getFunc domainDecl = some fn) :
    ∃ C' body, deriveBodyErrorType_enum_domain C domainDecl = some C' ∧
      C'.getBody domainDecl = some body ∧
      body = Stmt.BraceStmt [Stmt.ReturnStmt (Expr.InterpolatedStringLiteralExpr
        [Expr.DynamicTypeExpr (createSelfDeclRef domainDecl) none true] true) true] ∧
      body.hasSwitch = false ∧ body.countPatterns = 0 ∧
      (∀ (C₂ : ASTContext) (fn₂ : FuncDecl), C₂.getFunc domainDecl = some fn₂ →
        builtBody BodySynthesizer.deriveBodyErrorType_enum_domain C₂ domainDecl = some body) := by
  obtain ⟨C', h1, h2, _⟩ := setBody_getBody C domainDecl fn
    (Stmt.BraceStmt [Stmt.ReturnStmt (Expr.InterpolatedStringLiteralExpr
      [Expr.DynamicTypeExpr (createSelfDeclRef domainDecl) none true] true) true]) hfn
  exact ⟨C', _, h1, h2, rfl, rfl, rfl, fun C₂ fn₂ h => builtBody_domain C₂ domainDecl fn₂ h⟩

/-- C9 at the enum `Color`. -/
theorem domain_body_shape_witness :
    ∃ C' body, deriveBodyErrorType_enum_domain colorDomainContext 4 = some C' ∧
      C'.getBody 4 = some body ∧
      body = Stmt.BraceStmt [Stmt.ReturnStmt (Expr.InterpolatedStringLiteralExpr
        [Expr.DynamicTypeExpr (createSelfDeclRef 4) none true] true) true] ∧
      body.hasSwitch = false ∧ body.countPatterns = 0 ∧
      (∀ (C₂ : ASTContext) (fn₂ : FuncDecl), C₂.getFunc 4 = some fn₂ →
        builtBody BodySynthesizer.deriveBodyErrorType_enum_domain C₂ 4 = some body) :=
  domain_body_shape colorDomainContext 4
    { declContext := 0, selfType := .nominal 0, resultInterfaceType := .string,
      resultType := .string, implicit := true, body := none,
      bodySynthesizer := some BodySynthesizer.deriveBodyErrorType_enum_domain }
    (by rfl)

/-- C10: when the dynamic type of an enum value renders as the name of its
enum and a one-segment interpolation renders as its segment, running the
domain body on two values of an enum named n, with active cases A and B,
returns the same text for both, namely n, which is non-empty when n is. -/
theorem domain_value_independent_of_case (C C₀ : ASTContext) (domainDecl e : DeclId)
    (fn : FuncDecl) (n : NominalTypeDecl) (A B : DeclId)
    (hfn : C.getFunc domainDecl = some fn) (hn : C₀.getNominal e = some n) :
    ∃ body, builtBody BodySynthesizer.deriveBodyErrorType_enum_domain C domainDecl = some body ∧
      body.exec C₀ { fn := domainDecl, self := Value.enumCase e A } =
        Outcome.returned (Value.string n.name) ∧
      body.exec C₀ { fn := domainDecl, self := Value.enumCase e B } =
        Outcome.returned (Value.string n.name) ∧
      (n.name ≠ "" → ∀ s, body.exec C₀ { fn := domainDecl, self := Value.enumCase e A } =
        Outcome.returned (Value.string s) → s ≠ "") := by
  have hrun : ∀ X : DeclId, (Stmt.BraceStmt [Stmt.ReturnStmt (Expr.InterpolatedStringLiteralExpr
      [Expr.DynamicTypeExpr (createSelfDeclRef domainDecl) none true] true) true]).exec C₀
        { fn := domainDecl, self := Value.enumCase e X } =
        Outcome.returned (Value.string n.name) := by
    intro X
    simp [Stmt.exec, Stmt.execList, Expr.eval, Expr.evalSegments, createSelfDeclRef,
      Value.render, hn]
  refine ⟨_, builtBody_domain C domainDecl fn hfn, hrun A, hrun B, fun hne s hs => ?_⟩
  rw [hrun A] at hs
  have : n.name = s := Value.string.inj (Outcome.returned.inj hs)
  rw [← this]; exact hne

/-- C10 at the enum `Color`: the domain body returns "Color" for a `Red` and
for a `Green` value. -/
theorem domain_value_independent_of_case_witness :
    ∃ body, builtBody BodySynthesizer.deriveBodyErrorType_enum_domain colorDomainContext 4 =
        some body ∧
      body.exec colorDomainContext { fn := 4, self := Value.enumCase 0 1 } =
        Outcome.returned (Value.string "Color") ∧
      body.exec colorDomainContext { fn := 4, self := Value.enumCase 0 2 } =
        Outcome.returned (Value.string "Color") ∧
      ("Color" ≠ "" → ∀ s, body.exec colorDomainContext { fn := 4, self := Value.enumCase 0 1 } =
        Outcome.returned (Value.string s) → s ≠ "") :=
  domain_value_independent_of_case colorDomainContext colorDomainContext 4 0
    { declContext := 0, selfType := .nominal 0, resultInterfaceType := .string,
      resultType := .string, implicit := true, body := none,
      bodySynthesizer := some BodySynthesizer.deriveBodyErrorType_enum_domain }
    { kind := .Enum, name := "Color", members := [1, 2, 3, 4, 5, 6] } 1 2
    (by rfl) (by rfl)

theorem codeArms_mem (enumType : Ty) (elts : List DeclId) (code : Nat) (arm : CaseStmt)
    (h : arm ∈ codeArms enumType elts code) :
    ∃ c k, c ∈ elts ∧ arm = codeArm enumType c k := by
  induction elts generalizing code with
  | nil => simp [codeArms] at h
  | cons e es ih =>
    simp only [codeArms, List.mem_cons] at h
    rcases h with h | h
    · exact ⟨e, code, List.mem_cons_self _ _, h⟩
    · obtain ⟨c, k, hc, hk⟩ := ih _ h
      exact ⟨c, k, List.mem_cons_of_mem _ hc, hk⟩

theorem codeArms_pairs (enumType₁ enumType₂ : Ty) (elts : List DeclId) (code : Nat) :
    (codeArms enumType₁ elts code).map (fun a => (a.patternElement, a.returnedLiteral)) =
      (codeArms enumType₂ elts code).map (fun a => (a.patternElement, a.returnedLiteral)) := by
  induction elts generalizing code with
  | nil => rfl
  | cons e es ih =>
    simp only [codeArms, List.map_cons, ih]
    rfl

theorem arms_builtBody_code (C : ASTContext) (codeDecl : DeclId) (fn : FuncDecl)
    (n : NominalTypeDecl) (hfn : C.getFunc codeDecl = some fn)
    (hn : C.getNominal fn.declContext = some n) (hk : n.kind = NominalKind.Enum) :
    ∃ body, builtBody BodySynthesizer.deriveBodyErrorType_enum_code C codeDecl = some body ∧
      body.arms = codeArms (getDeclaredTypeInContext fn.declContext)
        (getAllElements C fn.declContext) 0 := by
  refine ⟨_, builtBody_code C codeDecl fn n hfn hn hk, ?_⟩
  by_cases h : getAllElements C fn.declContext = []
  · simp [h, Stmt.arms, codeArms]
  · simp [h, Stmt.arms]

/-- C11: the code producer is deterministic in the ordered case list: two
runs, on any two getters of any two enums that have the same ordered case
list, whatever the enums are called and whatever else they contain, build arms
with the same sequence of pairs of case and ordinal literal, hence the same
case-to-ordinal mapping. -/
theorem code_arms_determined_by_cases (C₁ C₂ : ASTContext) (codeDecl₁ codeDecl₂ : DeclId)
    (fn₁ fn₂ : FuncDecl) (n₁ n₂ : NominalTypeDecl)
    (hfn₁ : C₁.getFunc codeDecl₁ = some fn₁) (hfn₂ : C₂.getFunc codeDecl₂ = some fn₂)
    (hn₁ : C₁.getNominal fn₁.declContext = some n₁)
    (hn₂ : C₂.getNominal fn₂.declContext = some n₂)
    (hk₁ : n₁.kind = NominalKind.Enum) (hk₂ : n₂.kind = NominalKind.Enum)
    (hcases : getAllElements C₁ fn₁.declContext = getAllElements C₂ fn₂.declContext) :
    ∃ body₁ body₂,
      builtBody BodySynthesizer.deriveBodyErrorType_enum_code C₁ codeDecl₁ = some body₁ ∧
      builtBody BodySynthesizer.deriveBodyErrorType_enum_code C₂ codeDecl₂ = some body₂ ∧
      body₁.arms.map (fun a => (a.patternElement, a.returnedLiteral)) =
        body₂.arms.map (fun a => (a.patternElement, a.returnedLiteral)) ∧
      body₁.arms.map (fun a => (a.patternElement, a.ordinal)) =
        body₂.arms.map (fun a => (a.patternElement, a.ordinal)) := by
  obtain ⟨b₁, hb₁, ha₁⟩ := arms_builtBody_code C₁ codeDecl₁ fn₁ n₁ hfn₁ hn₁ hk₁
  obtain ⟨b₂, hb₂, ha₂⟩ := arms_builtBody_code C₂ codeDecl₂ fn₂ n₂ hfn₂ hn₂ hk₂
  have hpairs : b₁.arms.map (fun a => (a.patternElement, a.returnedLiteral)) =
      b₂.arms.map (fun a => (a.patternElement, a.returnedLiteral)) := by
    rw [ha₁, ha₂, hcases]
    exact codeArms_pairs _ _ _ _
  refine ⟨b₁, b₂, hb₁, hb₂, hpairs, ?_⟩
  have hmap := congrArg (List.map (fun (q : Option DeclId × Option String) =>
    (q.1, match q.2 with
          | some digits => parseDecimal digits
          | none => none))) hpairs
  simpa [List.map_map, Function.comp, CaseStmt.ordinal] using hmap

/-- C11 at the enums `Color` and `Palette`, which have the same three cases
but different names and members: their code getters get the same arms. -/
theorem code_arms_determined_by_cases_witness :
    ∃ body₁ body₂,
      builtBody BodySynthesizer.deriveBodyErrorType_enum_code colorCodeContext 4 = some body₁ ∧
      builtBody BodySynthesizer.deriveBodyErrorType_enum_code paletteCodeContext 5 = some body₂ ∧
      body₁.arms.map (fun a => (a.patternElement, a.returnedLiteral)) =
        body₂.arms.map (fun a => (a.patternElement, a.returnedLiteral)) ∧
      body₁.arms.map (fun a => (a.patternElement, a.ordinal)) =
        body₂.arms.map (fun a => (a.patternElement, a.ordinal)) :=
  code_arms_determined_by_cases colorCodeContext paletteCodeContext 4 5
    { declContext := 0, selfType := .nominal 0, resultInterfaceType := .int, resultType := .int,
      implicit := true, body := none,
      bodySynthesizer := some BodySynthesizer.deriveBodyErrorType_enum_code }
    { declContext := 0, selfType := .nominal 0, resultInterfaceType := .int, resultType := .int,
      implicit := true, body := none,
      bodySynthesizer := some BodySynthesizer.deriveBodyErrorType_enum_code }
    { kind := .Enum, name := "Color", members := [1, 2, 3, 4, 5, 6] }
    { kind := .Enum, name := "Palette", members := [1, 2, 3, 4, 5, 6, 7] }
    (by rfl) (by rfl) (by rfl) (by rfl) (by rfl) (by rfl) (by rfl)

/-- C12: for an enum with at least one case the code producer attaches a block
whose only statement is one switch over the reference to self, whose arms are
the arms pushed by the loop, in order; every arm has exactly one label item,
not a default, without guard and without bound variables, and its body is a
block of exactly one return of an integer literal. -/
theorem code_body_switch_shape (C : ASTContext) (codeDecl : DeclId) (fn : FuncDecl)
    (n : NominalTypeDecl) (hfn : C.getFunc codeDecl = some fn)
    (hn : C.getNominal fn.declContext = some n) (hk : n.kind = NominalKind.Enum)
    (h1 : 1 ≤ (getAllElements C fn.declContext).length) :
    ∃ C' arms, deriveBodyErrorType_enum_code C codeDecl = some C' ∧
      C'.getBody codeDecl =
        some (Stmt.BraceStmt [Stmt.SwitchStmt (createSelfDeclRef codeDecl) arms]) ∧
      createSelfDeclRef codeDecl = Expr.DeclRefExpr codeDecl true ∧
      arms = ((getAllElements C fn.declContext).foldl
        (deriveBodyErrorType_enum_code_loop (getDeclaredTypeInContext fn.declContext))
        ([], 0)).1 ∧
      arms.length = (getAllElements C fn.declContext).length ∧
      ∀ arm ∈ arms, ∃ (item : CaseLabelItem) (elt : DeclId) (digits : String),
        arm = CaseStmt.create [item] false
          (Stmt.BraceStmt [Stmt.ReturnStmt (Expr.IntegerLiteralExpr digits true) true]) ∧
        item.isDefault = false ∧ item.guardExpr = none ∧
        item.pattern = Pattern.EnumElementPattern (getDeclaredTypeInContext fn.declContext) ""
          elt none true := by
  have hne : getAllElements C fn.declContext ≠ [] := by
    intro h; rw [h] at h1; simp at h1
  obtain ⟨C', h1', h2', _⟩ := setBody_getBody C codeDecl fn
    (Stmt.BraceStmt [Stmt.SwitchStmt (createSelfDeclRef codeDecl)
      (codeArms (getDeclaredTypeInContext fn.declContext)
        (getAllElements C fn.declContext) 0)]) hfn
  refine ⟨C', _, ?_, h2', rfl, ?_, codeArms_length _ _ _, ?_⟩
  · rw [code_producer_eq C codeDecl fn n hfn hn hk, if_neg hne, h1']
  · rw [foldl_loop_eq]; rfl
  · intro arm harm
    obtain ⟨c, k, _, hck⟩ := codeArms_mem _ _ _ _ harm
    exact ⟨_, c, toString k, hck, rfl, rfl, rfl⟩

/-- C12 at the enum `Color`. -/
theorem code_body_switch_shape_witness :
    ∃ C' arms, deriveBodyErrorType_enum_code colorCodeContext 4 = some C' ∧
      C'.getBody 4 = some (Stmt.BraceStmt [Stmt.SwitchStmt (createSelfDeclRef 4) arms]) ∧
      createSelfDeclRef 4 = Expr.DeclRefExpr 4 true ∧
      arms = ((getAllElements colorCodeContext 0).foldl
        (deriveBodyErrorType_enum_code_loop (getDeclaredTypeInContext 0)) ([], 0)).1 ∧
      arms.length = (getAllElements colorCodeContext 0).length ∧
      ∀ arm ∈ arms, ∃ (item : CaseLabelItem) (elt : DeclId) (digits : String),
        arm = CaseStmt.create [item] false
          (Stmt.BraceStmt [Stmt.ReturnStmt (Expr.IntegerLiteralExpr digits true) true]) ∧
        item.isDefault = false ∧ item.guardExpr = none ∧
        item.pattern = Pattern.EnumElementPattern (getDeclaredTypeInContext 0) "" elt none true :=
  code_body_switch_shape colorCodeContext 4
    { declContext := 0, selfType := .nominal 0, resultInterfaceType := .int, resultType := .int,
      implicit := true, body := none,
      bodySynthesizer := some BodySynthesizer.deriveBodyErrorType_enum_code }
    { kind := .Enum, name := "Color", members := [1, 2, 3, 4, 5, 6] }
    (by rfl) (by rfl) (by rfl) (by decide)

theorem derivedContext_length (C : ASTContext) (type : DeclId) (n : NominalTypeDecl)
    (name : Identifier) (ty : Ty) (synth : BodySynthesizer) :
    (derivedContext C type n name ty synth).decls.length = C.decls.length + 3 := by
  simp [derivedContext]

theorem derivedContext_getElem?_of_ne (C : ASTContext) (type : DeclId) (n : NominalTypeDecl)
    (name : Identifier) (ty : Ty) (synth : BodySynthesizer) (j : Nat)
    (hj : j < C.decls.length) (hne : j ≠ type) :
    (derivedContext C type n name ty synth).decls[j]? = C.decls[j]? := by
  have hne' : type ≠ j := fun h => hne h.symm
  simp only [derivedContext]
  rw [List.getElem?_append_left (by simpa using hj), List.getElem?_set_ne hne']

theorem derivedContext_getFunc_of (C : ASTContext) (type : DeclId) (n : NominalTypeDecl)
    (name : Identifier) (ty : Ty) (synth : BodySynthesizer) (g : DeclId) (f : FuncDecl)
    (hn : C.getNominal type = some n) (hg : C.getFunc g = some f) :
    (derivedContext C type n name ty synth).getFunc g = some f := by
  obtain ⟨hlt, hget⟩ := getFunc_lt C g f hg
  obtain ⟨_, hnget⟩ := getNominal_lt C type n hn
  have hne : g ≠ type := by
    intro h; rw [h, hnget] at hget; simp at hget
  simp only [ASTContext.getFunc, ASTContext.getDecl,
    derivedContext_getElem?_of_ne C type n name ty synth g hlt hne, hget]

theorem derivedContext_getVar_of (C : ASTContext) (type : DeclId) (n : NominalTypeDecl)
    (name : Identifier) (ty : Ty) (synth : BodySynthesizer) (p : DeclId) (v : VarDecl)
    (hn : C.getNominal type = some n) (hp : C.getVar p = some v) :
    (derivedContext C type n name ty synth).getVar p = some v := by
  obtain ⟨_, hnget⟩ := getNominal_lt C type n hn
  have hget : C.decls[p]? = some (Decl.Var v) := by
    unfold ASTContext.getVar ASTContext.getDecl at hp
    split at hp
    · rename_i w hw
      simp only [Option.some.injEq] at hp
      rw [hw, hp]
    · simp at hp
  have hlt : p < C.decls.length := (List.getElem?_eq_some.1 hget).1
  have hne : p ≠ type := by
    intro h; rw [h, hnget] at hget; simp at hget
  simp only [ASTContext.getVar, ASTContext.getDecl,
    derivedContext_getElem?_of_ne C type n name ty synth p hlt hne, hget]

/-- The two shapes of the state after a call of the dispatcher: the
declarations are untouched, or one accessor has been derived for an enum. -/
theorem deriveErrorType_cases (tc : TypeChecker) (type : DeclId) (requirement : ValueDecl) :
    ((DerivedConformance.deriveErrorType tc type requirement).1 = none ∧
      (DerivedConformance.deriveErrorType tc type requirement).2.Context.decls =
        tc.Context.decls) ∨
    (∃ n name ty synth, tc.Context.getNominal type = some n ∧ n.kind = NominalKind.Enum ∧
      DerivedConformance.deriveErrorType tc type requirement =
        (some (tc.Context.decls.length + 1),
          { Context := derivedContext tc.Context type n name ty synth })) := by
  cases hcan : canDeriveConformance tc.Context type with
  | false =>
    rw [deriveErrorType_ineligible_eq tc type requirement hcan]
    exact Or.inl ⟨rfl, rfl⟩
  | true =>
    obtain ⟨n, hn, hk⟩ := (canDeriveConformance_iff _ _).1 hcan
    by_cases hd : requirement.name = Id_domain
    · exact Or.inr ⟨n, _, _, _, hn, hk, deriveErrorType_domain_eq tc type requirement n hn hk hd⟩
    · by_cases hc : requirement.name = Id_code
      · exact Or.inr ⟨n, _, _, _, hn, hk, deriveErrorType_code_eq tc type requirement n hn hk hc⟩
      · rw [deriveErrorType_unknown_eq tc type requirement n hn hk hd hc]
        exact Or.inl ⟨rfl, rfl⟩

theorem getFunc_congr (C C' : ASTContext) (h : C'.decls = C.decls) (g : DeclId) :
    C'.getFunc g = C.getFunc g := by
  simp only [ASTContext.getFunc, ASTContext.getDecl, h]

theorem getNominal_congr (C C' : ASTContext) (h : C'.decls = C.decls) (t : DeclId) :
    C'.getNominal t = C.getNominal t := by
  simp only [ASTContext.getNominal, ASTContext.getDecl, h]

theorem getMembers_congr (C C' : ASTContext) (h : C'.decls = C.decls) (t : DeclId) :
    C'.getMembers t = C.getMembers t := by
  simp only [ASTContext.getMembers, getNominal_congr C C' h]

theorem getAllElements_congr (C C' : ASTContext) (h : C'.decls = C.decls) (t : DeclId) :
    getAllElements C' t = getAllElements C t := by
  have hfun : C'.isEnumElement = C.isEnumElement := by
    funext j
    simp only [ASTContext.isEnumElement, ASTContext.getDecl, h]
  simp only [getAllElements, getMembers_congr C C' h, hfun]

/-- What one call of the dispatcher preserves. -/
theorem deriveErrorType_frame (tc : TypeChecker) (type : DeclId) (requirement : ValueDecl) :
    (tc.Context.getMembers type <+:
      (DerivedConformance.deriveErrorType tc type requirement).2.Context.getMembers type) ∧
    getAllElements (DerivedConformance.deriveErrorType tc type requirement).2.Context type =
      getAllElements tc.Context type ∧
    (∀ g f, tc.Context.getFunc g = some f →
      (DerivedConformance.deriveErrorType tc type requirement).2.Context.getFunc g = some f) ∧
    (∀ n, tc.Context.getNominal type = some n →
      ∃ n', (DerivedConformance.deriveErrorType tc type requirement).2.Context.getNominal type =
        some n' ∧ n'.kind = n.kind) ∧
    (tc.Context.getNominal type = none →
      (DerivedConformance.deriveErrorType tc type requirement).2.Context.getNominal type =
        none) := by
  rcases deriveErrorType_cases tc type requirement with ⟨_, h⟩ | ⟨n, name, ty, synth, hn, _, h⟩
  · refine ⟨?_, getAllElements_congr _ _ h type, ?_, ?_, ?_⟩
    · rw [getMembers_congr _ _ h]
    · intro g f hg; rw [getFunc_congr _ _ h]; exact hg
    · intro n hn; exact ⟨n, by rw [getNominal_congr _ _ h]; exact hn, rfl⟩
    · intro hn; rw [getNominal_congr _ _ h]; exact hn
  · rw [h]
    refine ⟨?_, derivedContext_getAllElements _ _ _ _ _ _ hn, ?_, ?_, ?_⟩
    · exact ⟨_, (derivedContext_getMembers _ _ _ _ _ _ hn).symm⟩
    · intro g f hg; exact derivedContext_getFunc_of _ _ _ _ _ _ g f hn hg
    · intro n₀ hn₀
      rw [hn] at hn₀
      refine ⟨_, derivedContext_getNominal _ _ _ _ _ _ hn, ?_⟩
      rw [← Option.some.inj hn₀]
    · intro hnone; rw [hn] at hnone; simp at hnone

theorem builtBody_code_of_frame (C C' : ASTContext) (g : DeclId) (f : FuncDecl)
    (hg : C.getFunc g = some f) (hg' : C'.getFunc g = some f)
    (hel : getAllElements C' f.declContext = getAllElements C f.declContext)
    (hnom : ∀ n, C.getNominal f.declContext = some n →
      ∃ n', C'.getNominal f.declContext = some n' ∧ n'.kind = n.kind)
    (hnone : C.getNominal f.declContext = none → C'.getNominal f.declContext = none) :
    builtBody BodySynthesizer.deriveBodyErrorType_enum_code C' g =
      builtBody BodySynthesizer.deriveBodyErrorType_enum_code C g := by
  cases hn : C.getNominal f.declContext with
  | none =>
    simp [builtBody, BodySynthesizer.invoke, deriveBodyErrorType_enum_code, hg, hg', hn,
      hnone hn]
  | some n =>
    obtain ⟨n', hn', hk'⟩ := hnom n hn
    by_cases hk : n.kind = NominalKind.Enum
    · rw [builtBody_code C g f n hg hn hk, builtBody_code C' g f n' hg' hn' (hk'.trans hk), hel]
    · have hk'' : ¬ n'.kind = NominalKind.Enum := by rw [hk']; exact hk
      simp [builtBody, BodySynthesizer.invoke, deriveBodyErrorType_enum_code, hg, hg', hn,
        hn', hk, hk'']

/-- What a sequence of calls of the dispatcher on one type preserves. -/
theorem deriveErrorTypeAll_frame (tc : TypeChecker) (type : DeclId)
    (requirements : List ValueDecl) :
    (tc.Context.getMembers type <+:
      (deriveErrorTypeAll tc type requirements).Context.getMembers type) ∧
    getAllElements (deriveErrorTypeAll tc type requirements).Context type =
      getAllElements tc.Context type ∧
    (∀ g f, tc.Context.getFunc g = some f →
      (deriveErrorTypeAll tc type requirements).Context.getFunc g = some f) ∧
    (∀ n, tc.Context.getNominal type = some n →
      ∃ n', (deriveErrorTypeAll tc type requirements).Context.getNominal type = some n' ∧
        n'.kind = n.kind) ∧
    (tc.Context.getNominal type = none →
      (deriveErrorTypeAll tc type requirements).Context.getNominal type = none) := by
  induction requirements generalizing tc with
  | nil =>
    exact ⟨List.prefix_refl _, rfl, fun _ _ h => h, fun n h => ⟨n, h, rfl⟩, fun h => h⟩
  | cons r rs ih =>
    obtain ⟨s1, s2, s3, s4, s5⟩ := deriveErrorType_frame tc type r
    obtain ⟨t1, t2, t3, t4, t5⟩ := ih (DerivedConformance.deriveErrorType tc type r).2
    simp only [deriveErrorTypeAll]
    refine ⟨s1.trans t1, t2.trans s2, fun g f h => t3 g f (s3 g f h), ?_, fun h => t5 (s5 h)⟩
    intro n hn
    obtain ⟨n', hn', hk'⟩ := s4 n hn
    obtain ⟨n'', hn'', hk''⟩ := t4 n' hn'
    exact ⟨n'', hn'', hk''.trans hk'⟩

/-- C13: every call of the dispatcher keeps the members the type had as an
unchanged leading part of its member list, in their order, and leaves the
ordered case list of the enum unchanged; the same holds for any sequence of
calls on the type, and the body the code producer builds for a getter of the
type after the sequence equals the body it builds before it. -/
theorem deriveErrorType_append_only (tc : TypeChecker) (type : DeclId)
    (requirement : ValueDecl) (requirements : List ValueDecl) :
    (tc.Context.getMembers type <+:
      (DerivedConformance.deriveErrorType tc type requirement).2.Context.getMembers type) ∧
    getAllElements (DerivedConformance.deriveErrorType tc type requirement).2.Context type =
      getAllElements tc.Context type ∧
    (tc.Context.getMembers type <+:
      (deriveErrorTypeAll tc type requirements).Context.getMembers type) ∧
    getAllElements (deriveErrorTypeAll tc type requirements).Context type =
      getAllElements tc.Context type ∧
    (∀ g f, tc.Context.getFunc g = some f → f.declContext = type →
      builtBody BodySynthesizer.deriveBodyErrorType_enum_code
          (deriveErrorTypeAll tc type requirements).Context g =
        builtBody BodySynthesizer.deriveBodyErrorType_enum_code tc.Context g) := by
  obtain ⟨s1, s2, _, _, _⟩ := deriveErrorType_frame tc type requirement
  obtain ⟨t1, t2, t3, t4, t5⟩ := deriveErrorTypeAll_frame tc type requirements
  refine ⟨s1, s2, t1, t2, fun g f hg hctx => ?_⟩
  subst hctx
  exact builtBody_code_of_frame tc.Context _ g f hg (t3 g f hg) t2 t4 t5

/-- C13 at the enum `Color` with `code` already derived: deriving `domain`,
`code` again and an unknown requirement keeps the six members in front,
keeps the three cases, and the code body of the getter at address 4 is the
same before and after. -/
theorem deriveErrorType_append_only_witness :
    (colorCodeContext.getMembers 0 <+:
      (DerivedConformance.deriveErrorType { Context := colorCodeContext } 0
        domainRequirement).2.Context.getMembers 0) ∧
    getAllElements (DerivedConformance.deriveErrorType { Context := colorCodeContext } 0
        domainRequirement).2.Context 0 = getAllElements colorCodeContext 0 ∧
    (colorCodeContext.getMembers 0 <+:
      (deriveErrorTypeAll { Context := colorCodeContext } 0
        [domainRequirement, codeRequirement, unknownRequirement]).Context.getMembers 0) ∧
    getAllElements (deriveErrorTypeAll { Context := colorCodeContext } 0
        [domainRequirement, codeRequirement, unknownRequirement]).Context 0 =
      getAllElements colorCodeContext 0 ∧
    (∀ g f, colorCodeContext.getFunc g = some f → f.declContext = 0 →
      builtBody BodySynthesizer.deriveBodyErrorType_enum_code
          (deriveErrorTypeAll { Context := colorCodeContext } 0
            [domainRequirement, codeRequirement, unknownRequirement]).Context g =
        builtBody BodySynthesizer.deriveBodyErrorType_enum_code colorCodeContext g) :=
  deriveErrorType_append_only { Context := colorCodeContext } 0 domainRequirement
    [domainRequirement, codeRequirement, unknownRequirement]

theorem deriveErrorType_recognised_eq (tc : TypeChecker) (type : DeclId)
    (requirement : ValueDecl) (n : NominalTypeDecl)
    (hn : tc.Context.getNominal type = some n) (hk : n.kind = NominalKind.Enum)
    (hname : requirement.name = Id_domain ∨ requirement.name = Id_code) :
    ∃ ty synth, DerivedConformance.deriveErrorType tc type requirement =
      (some (tc.Context.decls.length + 1),
        { Context := derivedContext tc.Context type n requirement.name ty synth }) := by
  by_cases hd : requirement.name = Id_domain
  · exact ⟨_, _, by rw [deriveErrorType_domain_eq tc type requirement n hn hk hd, hd]⟩
  · have hc : requirement.name = Id_code := hname.resolve_left hd
    exact ⟨_, _, by rw [deriveErrorType_code_eq tc type requirement n hn hk hc, hc]⟩

/-- C14: deriving the same recognised requirement twice in a row on an enum is
neither idempotent nor rejected: both calls return a property and emit no
diagnostic, two separate triples are appended, so the member list grows by six
declarations, and the two properties have the same name. -/
theorem deriveErrorType_twice_appends_two_triples (tc : TypeChecker) (type : DeclId)
    (requirement : ValueDecl) (n : NominalTypeDecl)
    (hn : tc.Context.getNominal type = some n) (hk : n.kind = NominalKind.Enum)
    (hname : requirement.name = Id_domain ∨ requirement.name = Id_code) :
    ∃ (tc₁ tc₂ : TypeChecker) (g₁ p₁ b₁ g₂ p₂ b₂ : DeclId) (v₁ v₂ : VarDecl),
      DerivedConformance.deriveErrorType tc type requirement = (some p₁, tc₁) ∧
      DerivedConformance.deriveErrorType tc₁ type requirement = (some p₂, tc₂) ∧
      tc₁.Context.diags = tc.Context.diags ∧ tc₂.Context.diags = tc.Context.diags ∧
      tc₁.Context.getMembers type = tc.Context.getMembers type ++ [g₁, p₁, b₁] ∧
      tc₂.Context.getMembers type =
        tc.Context.getMembers type ++ [g₁, p₁, b₁, g₂, p₂, b₂] ∧
      (tc₂.Context.getMembers type).length = (tc.Context.getMembers type).length + 6 ∧
      [g₁, p₁, b₁, g₂, p₂, b₂].Nodup ∧
      tc₂.Context.getVar p₁ = some v₁ ∧ tc₂.Context.getVar p₂ = some v₂ ∧
      v₁.name = requirement.name ∧ v₂.name = requirement.name ∧
      tc₂.Context.getMembers type ≠ tc₁.Context.getMembers type := by
  obtain ⟨ty₁, synth₁, h₁⟩ := deriveErrorType_recognised_eq tc type requirement n hn hk hname
  have hn₁ := derivedContext_getNominal tc.Context type n requirement.name ty₁ synth₁ hn
  obtain ⟨ty₂, synth₂, h₂⟩ := deriveErrorType_recognised_eq
    { Context := derivedContext tc.Context type n requirement.name ty₁ synth₁ } type requirement
    _ hn₁ hk hname
  have hlen := derivedContext_length tc.Context type n requirement.name ty₁ synth₁
  have hm₁ := derivedContext_getMembers tc.Context type n requirement.name ty₁ synth₁ hn
  have hm₂ := derivedContext_getMembers _ type _ requirement.name ty₂ synth₂ hn₁
  have hv₁ := derivedContext_getVar tc.Context type n requirement.name ty₁ synth₁
  have hv₁' := derivedContext_getVar_of _ type _ requirement.name ty₂ synth₂ _ _ hn₁ hv₁
  have hv₂ := derivedContext_getVar
    (derivedContext tc.Context type n requirement.name ty₁ synth₁) type
    { n with members := (n.members ++
        [tc.Context.decls.length, tc.Context.decls.length + 1, tc.Context.decls.length + 2]) }
    requirement.name ty₂ synth₂
  rw [hm₁, hlen] at hm₂
  rw [hlen] at hv₂
  simp only [hlen] at h₂
  simp only [List.append_assoc, List.cons_append, List.nil_append] at hm₂
  have hnodup : ∀ k : Nat, [k, k + 1, k + 2, k + 3, k + 3 + 1, k + 3 + 2].Nodup := by
    intro k
    simp
    omega
  refine ⟨_, _, tc.Context.decls.length, tc.Context.decls.length + 1,
    tc.Context.decls.length + 2, tc.Context.decls.length + 3,
    tc.Context.decls.length + 3 + 1, tc.Context.decls.length + 3 + 2, _, _,
    h₁, h₂, rfl, rfl, hm₁, hm₂, ?_, hnodup _, hv₁', hv₂, rfl, rfl, ?_⟩
  · rw [hm₂]; simp
  · intro h
    have hl := congrArg List.length h
    rw [hm₂, hm₁] at hl
    simp at hl

/-- C14 at the enum `Color` and the requirement `code`. -/
theorem deriveErrorType_twice_appends_two_triples_witness :
    ∃ (tc₁ tc₂ : TypeChecker) (g₁ p₁ b₁ g₂ p₂ b₂ : DeclId) (v₁ v₂ : VarDecl),
      DerivedConformance.deriveErrorType { Context := colorContext } 0 codeRequirement =
        (some p₁, tc₁) ∧
      DerivedConformance.deriveErrorType tc₁ 0 codeRequirement = (some p₂, tc₂) ∧
      tc₁.Context.diags = colorContext.diags ∧ tc₂.Context.diags = colorContext.diags ∧
      tc₁.Context.getMembers 0 = colorContext.getMembers 0 ++ [g₁, p₁, b₁] ∧
      tc₂.Context.getMembers 0 = colorContext.getMembers 0 ++ [g₁, p₁, b₁, g₂, p₂, b₂] ∧
      (tc₂.Context.getMembers 0).length = (colorContext.getMembers 0).length + 6 ∧
      [g₁, p₁, b₁, g₂, p₂, b₂].Nodup ∧
      tc₂.Context.getVar p₁ = some v₁ ∧ tc₂.Context.getVar p₂ = some v₂ ∧
      v₁.name = codeRequirement.name ∧ v₂.name = codeRequirement.name ∧
      tc₂.Context.getMembers 0 ≠ tc₁.Context.getMembers 0 :=
  deriveErrorType_twice_appends_two_triples { Context := colorContext } 0 codeRequirement
    { kind := .Enum, name := "Color", members := [1, 2, 3] } (by rfl) (by rfl)
    (Or.inr (by rfl))

theorem setBody_eq (C : ASTContext) (fn : DeclId) (f : FuncDecl) (body : Stmt)
    (hf : C.getFunc fn = some f) :
    setBody C fn body =
      some { C with decls := (C.decls.set fn (.Func { f with body := some body })) } := by
  simp only [setBody, hf]

theorem setBody_frame (C : ASTContext) (fn : DeclId) (f : FuncDecl) (body : Stmt)
    (hf : C.getFunc fn = some f) :
    (∀ j, j ≠ fn →
      (C.decls.set fn (.Func { f with body := some body }))[j]? = C.decls[j]?) ∧
    (∀ (d : List Diagnostic) (t : DeclId),
      ASTContext.getNominal
        { decls := C.decls.set fn (.Func { f with body := some body }), diags := d } t =
        C.getNominal t) ∧
    (∀ (d : List Diagnostic) (j : DeclId),
      ASTContext.isEnumElement
        { decls := C.decls.set fn (.Func { f with body := some body }), diags := d } j =
        C.isEnumElement j) ∧
    (∀ d : List Diagnostic,
      ASTContext.getFunc
        { decls := C.decls.set fn (.Func { f with body := some body }), diags := d } fn =
        some { f with body := some body }) := by
  obtain ⟨hlt, hget⟩ := getFunc_lt C fn f hf
  have hother : ∀ j, j ≠ fn →
      (C.decls.set fn (.Func { f with body := some body }))[j]? = C.decls[j]? :=
    fun j hj => List.getElem?_set_ne (fun h => hj h.symm)
  have hself : (C.decls.set fn (.Func { f with body := some body }))[fn]? =
      some (.Func { f with body := some body }) := by
    rw [List.getElem?_set]; simp [hlt]
  refine ⟨hother, ?_, ?_, ?_⟩
  · intro d t
    by_cases ht : t = fn
    · subst ht
      simp only [ASTContext.getNominal, ASTContext.getDecl, hself, hget]
    · simp only [ASTContext.getNominal, ASTContext.getDecl, hother t ht]
  · intro d j
    by_cases hj : j = fn
    · subst hj
      simp only [ASTContext.isEnumElement, ASTContext.getDecl, hself, hget]
    · simp only [ASTContext.isEnumElement, ASTContext.getDecl, hother j hj]
  · intro d
    simp only [ASTContext.getFunc, ASTContext.getDecl, hself]

/-- What attaching a body preserves, and that attaching the same body again
changes nothing. -/
theorem setBody_preserves (C C' : ASTContext) (fn : DeclId) (body : Stmt)
    (h : setBody C fn body = some C') :
    C'.diags = C.diags ∧ C'.decls.length = C.decls.length ∧
    (∀ j, j ≠ fn → C'.decls[j]? = C.decls[j]?) ∧
    (∃ f, C.getFunc fn = some f ∧ C'.getFunc fn = some { f with body := some body }) ∧
    (∀ t, C'.getNominal t = C.getNominal t) ∧
    (∀ t, C'.getMembers t = C.getMembers t) ∧
    (∀ t, getAllElements C' t = getAllElements C t) ∧
    C'.getBody fn = some body ∧
    setBody C' fn body = some C' := by
  cases hf : C.getFunc fn with
  | none => simp [setBody, hf] at h
  | some f =>
    rw [setBody_eq C fn f body hf] at h
    have hC' := (Option.some.inj h).symm
    obtain ⟨h1, h2, h3, h4⟩ := setBody_frame C fn f body hf
    subst hC'
    have hmem : ∀ t, ASTContext.getMembers
        { C with decls := (C.decls.set fn (.Func { f with body := some body })) } t =
        C.getMembers t := by
      intro t
      simp only [ASTContext.getMembers, h2]
    refine ⟨rfl, by simp, h1, ⟨f, rfl, h4 _⟩, h2 _, hmem, ?_, ?_, ?_⟩
    · intro t
      have hfun : ASTContext.isEnumElement
          { C with decls := (C.decls.set fn (.Func { f with body := some body })) } =
          C.isEnumElement := funext (h3 _)
      simp only [getAllElements, hmem, hfun]
    · simp only [ASTContext.getBody, h4]
    · rw [setBody_eq _ fn _ body (h4 _)]
      simp [List.set_set]

theorem invoke_eq_setBody (synth : BodySynthesizer) (C C' : ASTContext) (fn : DeclId)
    (h : synth.invoke C fn = some C') :
    ∃ body, setBody C fn body = some C' ∧ synth.invoke C' fn = setBody C' fn body := by
  cases synth with
  | deriveBodyErrorType_enum_domain =>
    exact ⟨_, h, rfl⟩
  | deriveBodyErrorType_enum_code =>
    simp only [BodySynthesizer.invoke] at h ⊢
    cases hf : C.getFunc fn with
    | none => simp [deriveBodyErrorType_enum_code, hf] at h
    | some f =>
      cases hn : C.getNominal f.declContext with
      | none => simp [deriveBodyErrorType_enum_code, hf, hn] at h
      | some n =>
        by_cases hk : n.kind = NominalKind.Enum
        · rw [code_producer_eq C fn f n hf hn hk] at h
          obtain ⟨_, _, _, ⟨f₀, hf₀, hf'⟩, hnom, _, hel, _, _⟩ := setBody_preserves C C' fn _ h
          rw [hf] at hf₀
          have hff : f = f₀ := Option.some.inj hf₀
          subst hff
          refine ⟨_, h, ?_⟩
          rw [code_producer_eq C' fn _ n hf' (by rw [hnom]; exact hn) hk]
          simp only [hel]
        · simp [deriveBodyErrorType_enum_code, hf, hn, hk] at h

/-- C15: a body producer, the domain one or the code one, changes only the
body of the function declaration it is given: every other declaration, the
member list and the case list of every type, and the diagnostics are as
before; invoking it a second time on the same getter leaves the context, and
so the body, as the first invocation made it. -/
theorem body_producer_changes_only_the_body (synth : BodySynthesizer) (C C' : ASTContext)
    (fn : DeclId) (h : synth.invoke C fn = some C') :
    C'.diags = C.diags ∧
    (∀ j, j ≠ fn → C'.getDecl j = C.getDecl j) ∧
    (∃ f body, C.getFunc fn = some f ∧ C'.getFunc fn = some { f with body := some body }) ∧
    (∀ t, C'.getMembers t = C.getMembers t) ∧
    (∀ t, getAllElements C' t = getAllElements C t) ∧
    synth.invoke C' fn = some C' ∧
    builtBody synth C' fn = builtBody synth C fn := by
  obtain ⟨body, hset, hagain⟩ := invoke_eq_setBody synth C C' fn h
  obtain ⟨h1, _, h3, ⟨f, hf, hf'⟩, _, h6, h7, _, h9⟩ := setBody_preserves C C' fn body hset
  have hinv : synth.invoke C' fn = some C' := by rw [hagain, h9]
  refine ⟨h1, fun j hj => h3 j hj, ⟨f, body, hf, hf'⟩, h6, h7, hinv, ?_⟩
  simp only [builtBody, hinv, h]

/-- C15 at the code getter of the enum `Color`. -/
theorem body_producer_changes_only_the_body_witness :
    colorCodeBuiltContext.diags = colorCodeContext.diags ∧
    (∀ j, j ≠ 4 → colorCodeBuiltContext.getDecl j = colorCodeContext.getDecl j) ∧
    (∃ f body, colorCodeContext.getFunc 4 = some f ∧
      colorCodeBuiltContext.getFunc 4 = some { f with body := some body }) ∧
    (∀ t, colorCodeBuiltContext.getMembers t = colorCodeContext.getMembers t) ∧
    (∀ t, getAllElements colorCodeBuiltContext t = getAllElements colorCodeContext t) ∧
    BodySynthesizer.invoke BodySynthesizer.deriveBodyErrorType_enum_code
      colorCodeBuiltContext 4 = some colorCodeBuiltContext ∧
    builtBody BodySynthesizer.deriveBodyErrorType_enum_code colorCodeBuiltContext 4 =
      builtBody BodySynthesizer.deriveBodyErrorType_enum_code colorCodeContext 4 :=
  body_producer_changes_only_the_body BodySynthesizer.deriveBodyErrorType_enum_code
    colorCodeContext colorCodeBuiltContext 4 (by rfl)

theorem toDigitsCore_digits (fuel n : Nat) (h : n < fuel) :
    (∀ c ∈ Nat.toDigitsCore 10 fuel n [], (digitValue c).isSome = true) ∧
    (n ≠ 0 → ∃ c cs, Nat.toDigitsCore 10 fuel n [] = c :: cs ∧ c ≠ '0') ∧
    (n = 0 → Nat.toDigitsCore 10 fuel n [] = ['0']) := by
  induction fuel generalizing n with
  | zero => omega
  | succ f ih =>
    simp only [Nat.toDigitsCore]
    split
    · rename_i h0
      have hlt : n < 10 := by omega
      rw [Nat.mod_eq_of_lt hlt]
      refine ⟨?_, ?_, ?_⟩
      · intro c hc
        simp only [List.mem_singleton] at hc
        rw [hc, digitValue_digitChar n hlt]; rfl
      · intro hn
        refine ⟨_, _, rfl, ?_⟩
        interval_cases n <;> first | omega | decide
      · intro hn; subst hn; rfl
    · rename_i h0
      obtain ⟨hall, hhead, _⟩ := ih (n / 10) (by omega)
      rw [toDigitsCore_append]
      refine ⟨?_, ?_, ?_⟩
      · intro c hc
        rcases List.mem_append.1 hc with hc | hc
        · exact hall c hc
        · simp only [List.mem_singleton] at hc
          rw [hc, digitValue_digitChar _ (Nat.mod_lt _ (by decide))]; rfl
      · intro _
        obtain ⟨c, cs, hcs, hc⟩ := hhead h0
        exact ⟨c, cs ++ [Nat.digitChar (n % 10)], by rw [hcs]; rfl, hc⟩
      · intro hn; subst hn; simp at h0

theorem isCanonicalDecimal_toString (n : Nat) : isCanonicalDecimal (toString n) = true := by
  have hdata : (toString n).data = Nat.toDigitsCore 10 (n + 1) n [] := rfl
  obtain ⟨hall, hhead, hzero⟩ := toDigitsCore_digits (n + 1) n (by omega)
  unfold isCanonicalDecimal
  rw [hdata]
  by_cases hn : n = 0
  · rw [hzero hn]; decide
  · obtain ⟨c, cs, hcs, hc⟩ := hhead hn
    rw [hcs] at hall
    rw [hcs]
    simp only [Bool.and_eq_true, List.all_eq_true, Bool.or_eq_true, bne_iff_ne, ne_eq]
    exact ⟨hall, Or.inl hc⟩

theorem arms_getElem?_literal (C : ASTContext) (codeDecl : DeclId) (fn : FuncDecl)
    (n : NominalTypeDecl) (hfn : C.getFunc codeDecl = some fn)
    (hn : C.getNominal fn.declContext = some n) (hk : n.kind = NominalKind.Enum)
    (hlen : (getAllElements C fn.declContext).length ≤ 2 ^ 32) :
    ∃ body, builtBody BodySynthesizer.deriveBodyErrorType_enum_code C codeDecl = some body ∧
      ∀ (i : Nat) (arm : CaseStmt), body.arms[i]? = some arm → arm.returnedLiteral = some (toString i) := by
  obtain ⟨body, hb, harms⟩ := arms_builtBody_code C codeDecl fn n hfn hn hk
  refine ⟨body, hb, fun i arm hi => ?_⟩
  rw [harms] at hi
  have hil : i < (getAllElements C fn.declContext).length := by
    have := (List.getElem?_eq_some.1 hi).1
    rwa [codeArms_length] at this
  have hic : (getAllElements C fn.declContext)[i]? =
      some ((getAllElements C fn.declContext)[i]) := List.getElem?_eq_getElem hil
  have h := codeArms_getElem? (getDeclaredTypeInContext fn.declContext) _ 0 i _ (by decide) hic
  rw [Nat.zero_add, Nat.mod_eq_of_lt (by omega), hi] at h
  rw [Option.some.inj h]
  rfl

theorem foldl_loop_counter (enumType : Ty) (elts : List DeclId) (st : List CaseStmt × Nat)
    (h : st.2 < 2 ^ 32) :
    (elts.foldl (deriveBodyErrorType_enum_code_loop enumType) st).2 =
      (st.2 + elts.length) % 2 ^ 32 := by
  induction elts generalizing st with
  | nil =>
    show st.2 = (st.2 + 0) % 2 ^ 32
    rw [Nat.add_zero, Nat.mod_eq_of_lt h]
  | cons e es ih =>
    rw [List.foldl_cons, ih _ (by
      show (st.2 + 1) % 2 ^ 32 < 2 ^ 32
      exact Nat.mod_lt _ (by decide))]
    show ((st.2 + 1) % 2 ^ 32 + es.length) % 2 ^ 32 = (st.2 + (es.length + 1)) % 2 ^ 32
    omega

theorem toString_injective : Function.Injective (fun i : Nat => some (toString i)) := by
  intro i j h
  have hp := congrArg parseDecimal (Option.some.inj h)
  rw [parseDecimal_toString, parseDecimal_toString] at hp
  exact Option.some.inj hp

/-- C16: with the counter incremented modulo 2^32, for an enum with N cases,
N at most 2^32, the body has one arm per case; the arm at position i returns
the literal that renders the counter, which holds i there; that text is a
canonical unsigned decimal numeral (digits only, no sign, no leading zero
except in "0") and parses back to i, so the literals, read in order, are the
numerals of 0, ..., N-1 and are pairwise distinct; when there is a case the
first arm exists and its literal is "0", the text of the literal returned for
an enum without cases. -/
theorem code_literals_canonical (C : ASTContext) (codeDecl : DeclId) (fn : FuncDecl)
    (n : NominalTypeDecl) (hfn : C.getFunc codeDecl = some fn)
    (hn : C.getNominal fn.declContext = some n) (hk : n.kind = NominalKind.Enum)
    (hlen : (getAllElements C fn.declContext).length ≤ 2 ^ 32) :
    ∃ body, builtBody BodySynthesizer.deriveBodyErrorType_enum_code C codeDecl = some body ∧
      body.arms.length = (getAllElements C fn.declContext).length ∧
      ((getAllElements C fn.declContext).foldl
        (deriveBodyErrorType_enum_code_loop (getDeclaredTypeInContext fn.declContext))
        ([], 0)).2 = (getAllElements C fn.declContext).length % 2 ^ 32 ∧
      (∀ (i : Nat) (c : DeclId), (getAllElements C fn.declContext)[i]? = some c →
        ∃ (arm : CaseStmt) (digits : String), body.arms[i]? = some arm ∧
          arm.patternElement = some c ∧ arm.returnedLiteral = some digits ∧
          digits = toString (i % 2 ^ 32) ∧ digits = toString i ∧
          isCanonicalDecimal digits = true ∧ parseDecimal digits = some i) ∧
      body.arms.map CaseStmt.returnedLiteral =
        (List.range (getAllElements C fn.declContext).length).map
          (fun i => some (toString i)) ∧
      (body.arms.map CaseStmt.returnedLiteral).Nodup ∧
      (∀ (i j : Nat) (a b : CaseStmt), body.arms[i]? = some a → body.arms[j]? = some b →
        i ≠ j → a.returnedLiteral ≠ b.returnedLiteral) ∧
      (1 ≤ (getAllElements C fn.declContext).length →
        ∃ a : CaseStmt, body.arms[0]? = some a ∧ a.returnedLiteral = some "0") ∧
      (∀ (C₀ : ASTContext) (d₀ : DeclId) (f₀ : FuncDecl) (n₀ : NominalTypeDecl),
        C₀.getFunc d₀ = some f₀ → C₀.getNominal f₀.declContext = some n₀ →
        n₀.kind = NominalKind.Enum → getAllElements C₀ f₀.declContext = [] →
        builtBody BodySynthesizer.deriveBodyErrorType_enum_code C₀ d₀ =
          some (Stmt.BraceStmt [Stmt.ReturnStmt (Expr.IntegerLiteralExpr "0" true) true])) := by
  obtain ⟨body, hb, harms⟩ := arms_builtBody_code C codeDecl fn n hfn hn hk
  obtain ⟨body', hb', hlit⟩ := arms_getElem?_literal C codeDecl fn n hfn hn hk hlen
  rw [hb] at hb'
  have hbb : body' = body := (Option.some.inj hb').symm
  subst hbb
  have hlength : body'.arms.length = (getAllElements C fn.declContext).length := by
    rw [harms, codeArms_length]
  have hidx : ∀ (i : Nat) (c : DeclId), (getAllElements C fn.declContext)[i]? = some c →
      body'.arms[i]? =
        some (codeArm (getDeclaredTypeInContext fn.declContext) c i) := by
    intro i c hic
    have hi : i < (getAllElements C fn.declContext).length := (List.getElem?_eq_some.1 hic).1
    have := codeArms_getElem? (getDeclaredTypeInContext fn.declContext) _ 0 i c (by decide) hic
    rw [harms, this, Nat.zero_add, Nat.mod_eq_of_lt (by omega)]
  have hmap : body'.arms.map CaseStmt.returnedLiteral =
      (List.range (getAllElements C fn.declContext).length).map
        (fun i => some (toString i)) := by
    apply List.ext_getElem?
    intro i
    simp only [List.getElem?_map]
    by_cases hi : i < (getAllElements C fn.declContext).length
    · have hic : (getAllElements C fn.declContext)[i]? =
          some ((getAllElements C fn.declContext)[i]) := List.getElem?_eq_getElem hi
      rw [hidx i _ hic, List.getElem?_range hi]
      rfl
    · rw [List.getElem?_eq_none (by omega), List.getElem?_eq_none (by simp; omega)]
      rfl
  refine ⟨body', hb, hlength, ?_, ?_, hmap, ?_, ?_, ?_, ?_⟩
  · rw [foldl_loop_counter _ _ _ (by decide)]
    simp
  · intro i c hic
    have hi : i < (getAllElements C fn.declContext).length := (List.getElem?_eq_some.1 hic).1
    refine ⟨_, toString i, hidx i c hic, rfl, rfl, ?_, rfl, isCanonicalDecimal_toString i,
      parseDecimal_toString i⟩
    rw [Nat.mod_eq_of_lt (by omega)]
  · rw [hmap]
    exact List.Nodup.map toString_injective (List.nodup_range _)
  · intro i j a b hi hj hij heq
    rw [hlit i a hi, hlit j b hj] at heq
    exact hij (toString_injective heq)
  · intro h1
    have h0 : (getAllElements C fn.declContext)[0]? =
        some ((getAllElements C fn.declContext)[0]) := List.getElem?_eq_getElem (by omega)
    exact ⟨_, hidx 0 _ h0, rfl⟩
  · intro C₀ d₀ f₀ n₀ hf₀ hn₀ hk₀ hempty
    rw [builtBody_code C₀ d₀ f₀ n₀ hf₀ hn₀ hk₀, if_pos hempty]

/-- C16 at the enum `Color`: three arms, with the literals "0", "1", "2". -/
theorem code_literals_canonical_witness :
    ∃ body, builtBody BodySynthesizer.deriveBodyErrorType_enum_code colorCodeContext 4 =
        some body ∧
      body.arms.length = (getAllElements colorCodeContext 0).length ∧
      ((getAllElements colorCodeContext 0).foldl
        (deriveBodyErrorType_enum_code_loop (getDeclaredTypeInContext 0))
        ([], 0)).2 = (getAllElements colorCodeContext 0).length % 2 ^ 32 ∧
      (∀ (i : Nat) (c : DeclId), (getAllElements colorCodeContext 0)[i]? = some c →
        ∃ (arm : CaseStmt) (digits : String), body.arms[i]? = some arm ∧
          arm.patternElement = some c ∧ arm.returnedLiteral = some digits ∧
          digits = toString (i % 2 ^ 32) ∧ digits = toString i ∧
          isCanonicalDecimal digits = true ∧ parseDecimal digits = some i) ∧
      body.arms.map CaseStmt.returnedLiteral =
        (List.range (getAllElements colorCodeContext 0).length).map
          (fun i => some (toString i)) ∧
      (body.arms.map CaseStmt.returnedLiteral).Nodup ∧
      (∀ (i j : Nat) (a b : CaseStmt), body.arms[i]? = some a → body.arms[j]? = some b →
        i ≠ j → a.returnedLiteral ≠ b.returnedLiteral) ∧
      (1 ≤ (getAllElements colorCodeContext 0).length →
        ∃ a : CaseStmt, body.arms[0]? = some a ∧ a.returnedLiteral = some "0") ∧
      (∀ (C₀ : ASTContext) (d₀ : DeclId) (f₀ : FuncDecl) (n₀ : NominalTypeDecl),
        C₀.getFunc d₀ = some f₀ → C₀.getNominal f₀.declContext = some n₀ →
        n₀.kind = NominalKind.Enum → getAllElements C₀ f₀.declContext = [] →
        builtBody BodySynthesizer.deriveBodyErrorType_enum_code C₀ d₀ =
          some (Stmt.BraceStmt [Stmt.ReturnStmt (Expr.IntegerLiteralExpr "0" true) true])) :=
  code_literals_canonical colorCodeContext 4
    { declContext := 0, selfType := .nominal 0, resultInterfaceType := .int, resultType := .int,
      implicit := true, body := none,
      bodySynthesizer := some BodySynthesizer.deriveBodyErrorType_enum_code }
    { kind := .Enum, name := "Color", members := [1, 2, 3, 4, 5, 6] }
    (by rfl) (by rfl) (by rfl) (by decide)

end swift
